import Mathlib

/-!
Verification development for the campus event-scheduling backend
(rooms, events, applications, moderation workflow).

The shallow embedding below translates the repository's code into Lean:

* `src/main.py` — the `service_error_handler` and `general_exception_handler`
  exception handlers are embedded as pure functions from the raised error to
  the `(status code, detail)` pair of the JSON response.
* `src/routers/moderation.py`, `src/routers/rooms.py`, `src/routers/users.py`,
  `src/routers/notifications.py` — the route tables and the bodies of the
  delete routes (service call, re-fetch of the entity by id, attribute
  dereference) are embedded over explicit stores.
* `src/scripts/seed_data.py` — `seed_rooms`, `seed_curators` and `seed_events`
  are embedded over explicit stores, with the session's pending-row/commit
  behaviour made explicit.
* The Event Lifecycle & Admission Engine (`transition_event`,
  `submit_application`, `decide_application`, `withdraw_application`, the
  booking conflict checker) lives in `services/` modules that are not part of
  the visible sources; those operations are modelled from the specification,
  as marked on each definition.

Machine dates and times are modelled as natural numbers (a day index and
minutes since midnight); UUIDs are modelled as naturals handed out by a
monotone counter threaded through each store.
-/

namespace UviB

/-- Status of an event, from `core.enums.EventStatus` as described by the
specification's data model. -/
inductive EventStatus
  | draft
  | pending
  | approved
  | rejected
  | cancelled
  | completed
deriving DecidableEq, Repr

/-- Status of an application to attend an event. -/
inductive AppStatus
  | submitted
  | approved
  | rejected
  | withdrawn
deriving DecidableEq, Repr

/-- Roles of `core.enums.UserRole`.  The sources show `ADMIN` and `CURATOR`;
`student` stands for any further non-privileged role and `system` for the
scheduler that completes events past their end time. -/
inductive UserRole
  | admin
  | curator
  | student
  | system
deriving DecidableEq, Repr

/-- An authenticated caller: its user id and resolved role. -/
structure Actor where
  id : Nat
  role : UserRole
deriving DecidableEq, Repr

/-- The service-layer error hierarchy of `services.exceptions` as imported by
`src/main.py` (`ServiceError` with subclasses `EntityNotFoundError`,
`EntityConflictError`, `InvalidStateError`) plus the further kinds named by
the specification's error-handling design (`ConflictError`, `ForbiddenError`);
`generic` stands for any other `ServiceError`.  Every kind carries its
human-readable detail. -/
inductive SvcError
  | entityNotFound (detail : String)
  | entityConflict (detail : String)
  | invalidState (detail : String)
  | conflictErr (detail : String)
  | forbidden (detail : String)
  | generic (detail : String)
deriving DecidableEq, Repr

/-- Detail string carried by a service error. -/
def SvcError.detail : SvcError → String
  | .entityNotFound d => d
  | .entityConflict d => d
  | .invalidState d => d
  | .conflictErr d => d
  | .forbidden d => d
  | .generic d => d

/-- Embedding of `service_error_handler` from `src/main.py`: the status code
is 400 by default, 404 for `EntityNotFoundError`, 409 for
`EntityConflictError`, 400 for `InvalidStateError`; the JSON body carries
`exc.detail`.  The Sentry capture on 5xx is a side effect with no influence on
the response and is not modelled.  The result is the `(status, detail)`
pair of the `JSONResponse`. -/
def service_error_handler (exc : SvcError) : Nat × String :=
  let statusCode : Nat :=
    match exc with
    | .entityNotFound _ => 404
    | .entityConflict _ => 409
    | .invalidState _ => 400
    | _ => 400
  (statusCode, exc.detail)

/-- Application settings; only the `debug` flag is relevant to the exception
handlers of `src/main.py`. -/
structure Settings where
  debug : Bool
deriving DecidableEq, Repr

/-- Embedding of `general_exception_handler` from `src/main.py`: for any
unhandled exception (represented by its message string) the response status is
500, and the detail is the exception's message when `settings.debug` is true
and the fixed string `"Internal server error"` otherwise. -/
def general_exception_handler (settings : Settings) (excMessage : String) : Nat × String :=
  let detail := if settings.debug then excMessage else "Internal server error"
  (500, detail)

/-! ## Data model of the Event Lifecycle & Admission Engine

The `Event`, `EventApplication`, `EventModerationHistory` and
`ApplicationHistory` entities follow the specification's data model (`models/`
is not among the visible sources).  Dates are day indices, times are minutes
since midnight. -/

/-- An event row.  `roomId` is `some` for an internal room booking and `none`
when the event uses a free-text `externalLocation`. -/
structure Event where
  id : Nat
  title : String
  description : String
  eventDate : Nat
  startTime : Nat
  endTime : Nat
  maxParticipants : Option Nat
  registeredCount : Nat
  status : EventStatus
  creatorId : Nat
  curatorId : Nat
  roomId : Option Nat
  externalLocation : Option String
  needApproveCandidates : Bool
deriving DecidableEq, Repr

/-- An application by `applicantId` to attend event `eventId`. -/
structure EventApplication where
  id : Nat
  eventId : Nat
  applicantId : Nat
  status : AppStatus
  motivation : String
deriving DecidableEq, Repr

/-- One audit row for an accepted event status transition. -/
structure EventModerationHistory where
  id : Nat
  eventId : Nat
  comment : String
  previousStatus : EventStatus
  newStatus : EventStatus
  actorId : Nat
deriving DecidableEq, Repr

/-- One audit row for an accepted application status transition. -/
structure ApplicationHistory where
  id : Nat
  applicationId : Nat
  comment : String
  previousStatus : AppStatus
  newStatus : AppStatus
  actorId : Nat
deriving DecidableEq, Repr

/-- A notification intent emitted by the engine: the recipient and the
message.  Delivery is out of scope. -/
structure NotificationIntent where
  userId : Nat
  message : String
deriving DecidableEq, Repr

/-- The transactional store the engine operates on.  `nextId` is the monotone
counter handing out fresh identifiers. -/
structure EngineState where
  nextId : Nat
  events : List Event
  applications : List EventApplication
  eventHistory : List EventModerationHistory
  applicationHistory : List ApplicationHistory
deriving DecidableEq, Repr

/-- Find an event by id. -/
def findEvent (s : EngineState) (eventId : Nat) : Option Event :=
  s.events.find? (fun e => e.id == eventId)

/-- Find an application by id. -/
def findApplication (s : EngineState) (applicationId : Nat) : Option EventApplication :=
  s.applications.find? (fun a => a.id == applicationId)

/-- Update the event with the given id in place, leaving all others as they
are. -/
def updateEvent (events : List Event) (eventId : Nat) (f : Event → Event) : List Event :=
  events.map (fun e => if e.id == eventId then f e else e)

/-- Update the application with the given id in place, leaving all others as
they are. -/
def updateApplication (apps : List EventApplication) (applicationId : Nat)
    (f : EventApplication → EventApplication) : List EventApplication :=
  apps.map (fun a => if a.id == applicationId then f a else a)

/-- Modelled from the spec: the Booking Conflict Checker of `services/`
(absent from the visible sources).  Given a candidate room, date and interval
and an optional event to exclude, it returns the events that occupy the same
room on the same date, have status PENDING or APPROVED, and overlap the
candidate under the half-open rule `start < other.end AND other.start < end`.
An event with only an external location has `roomId = none` and is never
reported. -/
def conflictingEvents (events : List Event) (roomId date startT endT : Nat)
    (excludeEventId : Option Nat) : List Event :=
  events.filter fun e =>
    (match excludeEventId with
     | some x => e.id != x
     | none => true) &&
    e.roomId == some roomId &&
    e.eventDate == date &&
    (e.status == .pending || e.status == .approved) &&
    decide (startT < e.endTime) &&
    decide (e.startTime < endT)

/-- Printable name of an event status, used in error details. -/
def statusName : EventStatus → String
  | .draft => "DRAFT"
  | .pending => "PENDING"
  | .approved => "APPROVED"
  | .rejected => "REJECTED"
  | .cancelled => "CANCELLED"
  | .completed => "COMPLETED"

/-- Detail string of the `InvalidStateError` raised for an illegal transition;
it names the current and the requested status. -/
def invalidTransitionDetail (current target : EventStatus) : String :=
  "invalid transition from " ++ statusName current ++ " to " ++ statusName target

/-- Modelled from the spec: the table of allowed event status transitions
(section 4.3 of the specification). -/
def allowedTransition : EventStatus → EventStatus → Bool
  | .draft, .pending => true
  | .pending, .approved => true
  | .pending, .rejected => true
  | .approved, .cancelled => true
  | .approved, .completed => true
  | _, _ => false

/-- Modelled from the spec: the actor set required for each allowed
transition — creator for DRAFT→PENDING, curator or admin for moderation,
creator or curator or admin for cancellation, and the system scheduler for
completion. -/
def transitionPermitted (e : Event) (target : EventStatus) (actor : Actor) : Bool :=
  match e.status, target with
  | .draft, .pending => actor.id == e.creatorId
  | .pending, .approved => actor.role == .curator || actor.role == .admin
  | .pending, .rejected => actor.role == .curator || actor.role == .admin
  | .approved, .cancelled =>
      actor.id == e.creatorId || actor.role == .curator || actor.role == .admin
  | .approved, .completed => actor.role == .system
  | _, _ => false

/-- Modelled from the spec: the Notification Intent Emitter — a stateless
mapping from an accepted transition to the recipients to notify. -/
def transitionIntents (e : Event) (target : EventStatus) : List NotificationIntent :=
  match target with
  | .approved => [⟨e.creatorId, "event approved"⟩, ⟨e.curatorId, "event approved"⟩]
  | .rejected => [⟨e.creatorId, "event rejected"⟩]
  | .cancelled => [⟨e.creatorId, "event cancelled"⟩, ⟨e.curatorId, "event cancelled"⟩]
  | _ => []

/-- Force every APPROVED application of the given event to WITHDRAWN (used by
APPROVED→CANCELLED). -/
def withdrawApprovedApps (apps : List EventApplication) (eventId : Nat) :
    List EventApplication :=
  apps.map fun a =>
    if a.eventId == eventId && a.status == .approved then { a with status := .withdrawn } else a

/-- Transition-specific validation of `transition_event`: the conflict check
for PENDING→APPROVED, the required comment for PENDING→REJECTED, and the time
bounds for cancellation and completion.  Returns the error to raise, if
any. -/
def eventTransitionCheck (s : EngineState) (e : Event) (target : EventStatus)
    (comment : Option String) (today nowMinutes : Nat) : Option SvcError :=
  match e.status, target with
  | .pending, .approved =>
    match e.roomId with
    | some rid =>
      if (conflictingEvents s.events rid e.eventDate e.startTime e.endTime
            (some e.id)).isEmpty then
        none
      else some (.conflictErr "room booking overlap detected")
    | none => none
  | .pending, .rejected =>
    if comment.isNone then some (.invalidState "rejection requires a comment") else none
  | .approved, .cancelled =>
    if decide (today < e.eventDate) then none
    else some (.invalidState "event can only be cancelled before its date")
  | .approved, .completed =>
    if decide (e.eventDate < today) ||
       (e.eventDate == today && decide (e.endTime ≤ nowMinutes)) then
      none
    else some (.invalidState "event has not ended yet")
  | _, _ => none

/-- State committed by an accepted event transition: the event's status is
written (cancellation also resets `registeredCount` to 0 and withdraws every
APPROVED application of the event) and exactly one moderation-history row is
appended, all in one transaction. -/
def acceptEventTransition (s : EngineState) (e : Event) (target : EventStatus)
    (actor : Actor) (comment : Option String) : EngineState :=
  let cancelled := target == EventStatus.cancelled
  { s with
    nextId := s.nextId + 1
    events := updateEvent s.events e.id fun ev =>
      { ev with
        status := target
        registeredCount := if cancelled then 0 else ev.registeredCount }
    applications :=
      if cancelled then withdrawApprovedApps s.applications e.id else s.applications
    eventHistory :=
      s.eventHistory ++ [⟨s.nextId, e.id, comment.getD "", e.status, target, actor.id⟩] }

/-- Modelled from the spec: `transition_event` of the Event Lifecycle State
Machine (section 4.3; the `services/` module is absent from the visible
sources).  It validates that the requested transition is in the allowed table
(else `InvalidStateError` naming current and requested status), that the actor
is permitted (else `ForbiddenError`), and the transition-specific conditions
of `eventTransitionCheck`.  On success it commits `acceptEventTransition` and
returns the notification intents.  On error, nothing is committed. -/
def transition_event (s : EngineState) (eventId : Nat) (target : EventStatus)
    (actor : Actor) (comment : Option String) (today nowMinutes : Nat) :
    Except SvcError (EngineState × Event × List NotificationIntent) :=
  match findEvent s eventId with
  | none => .error (.entityNotFound "event not found")
  | some e =>
    if !allowedTransition e.status target then
      .error (.invalidState (invalidTransitionDetail e.status target))
    else if !transitionPermitted e target actor then
      .error (.forbidden "actor role not permitted for the transition")
    else
      match eventTransitionCheck s e target comment today nowMinutes with
      | some err => .error err
      | none =>
        .ok (acceptEventTransition s e target actor comment,
             { e with
                status := target
                registeredCount :=
                  if target == EventStatus.cancelled then 0 else e.registeredCount },
             transitionIntents e target)

/-- True when the applicant already has a non-WITHDRAWN application for the
event (at most one active application per `(event, applicant)` pair). -/
def activeApplicationExists (apps : List EventApplication) (eventId applicantId : Nat) : Bool :=
  apps.any fun a =>
    a.eventId == eventId && a.applicantId == applicantId && a.status != .withdrawn

/-- Payload of event creation: events enter the lifecycle in DRAFT with
`registeredCount = 0`. -/
structure EventCreatePayload where
  title : String
  description : String
  eventDate : Nat
  startTime : Nat
  endTime : Nat
  maxParticipants : Option Nat
  creatorId : Nat
  curatorId : Nat
  roomId : Option Nat
  externalLocation : Option String
  needApproveCandidates : Bool
deriving DecidableEq, Repr

/-- Modelled from the spec: event creation (the events router is absent from
the visible sources).  A fresh event starts in DRAFT with no registered
participants. -/
def create_event (s : EngineState) (p : EventCreatePayload) : EngineState × Event :=
  let e : Event :=
    { id := s.nextId
      title := p.title
      description := p.description
      eventDate := p.eventDate
      startTime := p.startTime
      endTime := p.endTime
      maxParticipants := p.maxParticipants
      registeredCount := 0
      status := .draft
      creatorId := p.creatorId
      curatorId := p.curatorId
      roomId := p.roomId
      externalLocation := p.externalLocation
      needApproveCandidates := p.needApproveCandidates }
  ({ s with nextId := s.nextId + 1, events := s.events ++ [e] }, e)

/-- Capacity test: true iff the event is bounded and `registeredCount` has
reached `maxParticipants`. -/
def eventFull (e : Event) : Bool :=
  match e.maxParticipants with
  | some m => e.registeredCount == m
  | none => false

/-- Modelled from the spec: `submit_application` of the Admission Controller
(section 4.4).  Fails with `InvalidStateError` unless the event is APPROVED
and with `EntityConflictError` on a duplicate active application.  When
`needApproveCandidates` is false the application is auto-approved at creation
subject to capacity (`EntityConflictError` when
`registeredCount == maxParticipants`), incrementing `registeredCount` and
appending one application-history row in the same transaction; otherwise the
application is created in SUBMITTED awaiting a curator decision. -/
def submit_application (s : EngineState) (eventId applicantId : Nat) (motivation : String) :
    Except SvcError (EngineState × EventApplication) :=
  match findEvent s eventId with
  | none => .error (.entityNotFound "event not found")
  | some e =>
    if e.status != .approved then
      .error (.invalidState "event is not open for applications")
    else if activeApplicationExists s.applications eventId applicantId then
      .error (.entityConflict "duplicate active application")
    else if e.needApproveCandidates then
      let app : EventApplication := ⟨s.nextId, eventId, applicantId, .submitted, motivation⟩
      .ok ({ s with
              nextId := s.nextId + 1
              applications := s.applications ++ [app] }, app)
    else
      if eventFull e then
        .error (.entityConflict "event full")
      else
        let app : EventApplication := ⟨s.nextId, eventId, applicantId, .approved, motivation⟩
        let row : ApplicationHistory :=
          ⟨s.nextId + 1, app.id, "", .submitted, .approved, applicantId⟩
        let newEvents := updateEvent s.events e.id fun ev =>
          { ev with registeredCount := ev.registeredCount + 1 }
        .ok ({ s with
                nextId := s.nextId + 2
                events := newEvents
                applications := s.applications ++ [app]
                applicationHistory := s.applicationHistory ++ [row] }, app)

/-- A curator decision on a submitted application. -/
inductive Decision
  | approve
  | reject
deriving DecidableEq, Repr

/-- Modelled from the spec: `decide_application` of the Admission Controller
(section 4.4).  Requires a curator or admin actor and a SUBMITTED application.
An approval fails with `EntityConflictError` when capacity is already full and
otherwise increments `registeredCount` together with the SUBMITTED→APPROVED
write; a rejection needs no capacity check.  Every decision appends exactly
one application-history row in the same transaction. -/
def decide_application (s : EngineState) (applicationId : Nat) (decision : Decision)
    (actor : Actor) (comment : Option String) :
    Except SvcError (EngineState × EventApplication × List NotificationIntent) :=
  match findApplication s applicationId with
  | none => .error (.entityNotFound "application not found")
  | some a =>
    match findEvent s a.eventId with
    | none => .error (.entityNotFound "event not found")
    | some e =>
      if !(actor.role == .curator || actor.role == .admin) then
        .error (.forbidden "actor role not permitted for the transition")
      else if a.status != .submitted then
        .error (.invalidState "application is not awaiting a decision")
      else
        match decision with
        | .reject =>
          let a' := { a with status := AppStatus.rejected }
          let row : ApplicationHistory :=
            ⟨s.nextId, a.id, comment.getD "", a.status, .rejected, actor.id⟩
          .ok ({ s with
                  nextId := s.nextId + 1
                  applications := updateApplication s.applications a.id
                    (fun x => { x with status := .rejected })
                  applicationHistory := s.applicationHistory ++ [row] },
               a', [⟨a.applicantId, "application rejected"⟩])
        | .approve =>
          if eventFull e then
            .error (.entityConflict "event full")
          else
            let a' := { a with status := AppStatus.approved }
            let row : ApplicationHistory :=
              ⟨s.nextId, a.id, comment.getD "", a.status, .approved, actor.id⟩
            .ok ({ s with
                    nextId := s.nextId + 1
                    events := updateEvent s.events e.id
                      (fun ev => { ev with registeredCount := ev.registeredCount + 1 })
                    applications := updateApplication s.applications a.id
                      (fun x => { x with status := .approved })
                    applicationHistory := s.applicationHistory ++ [row] },
                 a', [⟨a.applicantId, "application approved"⟩])

/-- Modelled from the spec: `withdraw_application` of the Admission Controller
(section 4.4).  The applicant, a curator or an admin may withdraw.
Withdrawing an already-WITHDRAWN application is an idempotent no-op returning
success with no new history row; otherwise the status becomes WITHDRAWN, the
parent event's `registeredCount` is decremented when the prior status was
APPROVED, and one application-history row is appended. -/
def withdraw_application (s : EngineState) (applicationId : Nat) (actor : Actor) :
    Except SvcError (EngineState × EventApplication) :=
  match findApplication s applicationId with
  | none => .error (.entityNotFound "application not found")
  | some a =>
    if !(actor.id == a.applicantId || actor.role == .curator || actor.role == .admin) then
      .error (.forbidden "actor may not withdraw this application")
    else if a.status == .withdrawn then
      .ok (s, a)
    else
      let newEvents :=
        if a.status == .approved then
          updateEvent s.events a.eventId
            (fun ev => { ev with registeredCount := ev.registeredCount - 1 })
        else
          s.events
      let row : ApplicationHistory := ⟨s.nextId, a.id, "", a.status, .withdrawn, actor.id⟩
      .ok ({ s with
              nextId := s.nextId + 1
              events := newEvents
              applications := updateApplication s.applications a.id
                (fun x => { x with status := .withdrawn })
              applicationHistory := s.applicationHistory ++ [row] },
           { a with status := AppStatus.withdrawn })

/-- Modelled from the spec: `check_room_availability` (section 6) — true iff
the conflict checker reports no conflicting event. -/
def check_room_availability (s : EngineState) (roomId date startT endT : Nat)
    (excludeEventId : Option Nat) : Bool :=
  (conflictingEvents s.events roomId date startT endT excludeEventId).isEmpty

/-- The public operations of the engine (section 6 of the specification, plus
event creation which feeds the lifecycle). -/
inductive EngineOp
  | createEvent (p : EventCreatePayload)
  | transitionEvent (eventId : Nat) (target : EventStatus) (actor : Actor)
      (comment : Option String) (today nowMinutes : Nat)
  | submitApplication (eventId applicantId : Nat) (motivation : String)
  | decideApplication (applicationId : Nat) (decision : Decision) (actor : Actor)
      (comment : Option String)
  | withdrawApplication (applicationId : Nat) (actor : Actor)
  | checkRoomAvailability (roomId date startT endT : Nat) (excludeEventId : Option Nat)
  | listEventHistory (eventId : Nat)
  | listApplicationHistory (applicationId : Nat)

/-- State left behind by a public operation: the successor state on success
and the unchanged state when the operation fails (the transaction aborts) or
only reads. -/
def applyOp (op : EngineOp) (s : EngineState) : EngineState :=
  match op with
  | .createEvent p => (create_event s p).1
  | .transitionEvent eventId target actor comment today nowMinutes =>
    match transition_event s eventId target actor comment today nowMinutes with
    | .ok (s', _, _) => s'
    | .error _ => s
  | .submitApplication eventId applicantId motivation =>
    match submit_application s eventId applicantId motivation with
    | .ok (s', _) => s'
    | .error _ => s
  | .decideApplication applicationId decision actor comment =>
    match decide_application s applicationId decision actor comment with
    | .ok (s', _, _) => s'
    | .error _ => s
  | .withdrawApplication applicationId actor =>
    match withdraw_application s applicationId actor with
    | .ok (s', _) => s'
    | .error _ => s
  | .checkRoomAvailability _ _ _ _ _ => s
  | .listEventHistory _ => s
  | .listApplicationHistory _ => s

/-! ## The admission-accounting invariant -/

/-- Number of APPROVED applications for the given event. -/
def approvedCount (apps : List EventApplication) (eventId : Nat) : Nat :=
  (apps.filter fun a => a.eventId == eventId && a.status == .approved).length

/-- Capacity bound: when `max` is `some m` the count may not exceed `m`. -/
def capacityOk : Option Nat → Nat → Prop
  | some m, c => c ≤ m
  | none, _ => True

instance (o : Option Nat) (c : Nat) : Decidable (capacityOk o c) :=
  match o with
  | some _ => inferInstanceAs (Decidable (_ ≤ _))
  | none => isTrue trivial

/-- The claim's property: every event's `registeredCount` equals the number of
APPROVED applications for it, and that number respects `maxParticipants` when
bounded. -/
def countInvariant (s : EngineState) : Prop :=
  ∀ e ∈ s.events,
    e.registeredCount = approvedCount s.applications e.id ∧
    capacityOk e.maxParticipants (approvedCount s.applications e.id)

/-- Well-formedness of the store: event and application ids are pairwise
distinct and below the fresh-id counter, and applications reference event ids
below the counter. -/
def EngineWF (s : EngineState) : Prop :=
  (s.events.map Event.id).Nodup ∧
  (s.applications.map EventApplication.id).Nodup ∧
  (∀ e ∈ s.events, e.id < s.nextId) ∧
  (∀ a ∈ s.applications, a.id < s.nextId) ∧
  (∀ a ∈ s.applications, a.eventId < s.nextId)

/-- Full engine invariant: well-formedness together with the admission
accounting property. -/
def EngineInvariant (s : EngineState) : Prop :=
  EngineWF s ∧ countInvariant s

instance (s : EngineState) : Decidable (countInvariant s) := by
  unfold countInvariant
  exact inferInstance

instance (s : EngineState) : Decidable (EngineWF s) := by
  unfold EngineWF
  exact inferInstance

instance (s : EngineState) : Decidable (EngineInvariant s) := by
  unfold EngineInvariant
  exact inferInstance

/-! ## Counting lemmas -/

/-- The Boolean predicate selecting the applications counted by
`approvedCount` for event `eid`. -/
def isApprovedFor (eid : Nat) (a : EventApplication) : Bool :=
  a.eventId == eid && a.status == .approved

lemma approvedCount_eq (apps : List EventApplication) (eid : Nat) :
    approvedCount apps eid = (apps.filter (isApprovedFor eid)).length := rfl

lemma capacityOk_zero (o : Option Nat) : capacityOk o 0 := by
  cases o with
  | none => trivial
  | some m => exact Nat.zero_le m

lemma capacityOk_mono {o : Option Nat} {c c' : Nat} (hle : c' ≤ c) (h : capacityOk o c) :
    capacityOk o c' := by
  cases o with
  | none => trivial
  | some m => exact Nat.le_trans hle h

/-- Mapping a function that does not change whether each element satisfies the
filter predicate leaves the filtered length unchanged. -/
lemma filter_length_map_congr {α : Type} (h : α → α) (p : α → Bool) :
    ∀ l : List α, (∀ x ∈ l, p (h x) = p x) →
      ((l.map h).filter p).length = (l.filter p).length := by
  intro l
  induction l with
  | nil => intro _; rfl
  | cons x xs ih =>
    intro hc
    have hx : p (h x) = p x := hc x (by simp)
    have hxs : ((xs.map h).filter p).length = (xs.filter p).length :=
      ih fun y hy => hc y (by simp [hy])
    simp only [List.map_cons, List.filter_cons, hx]
    cases p x <;> simp [hxs]

/-- Updating the single element with a given id (ids being pairwise distinct)
changes the filtered length by the difference of the predicate's value on the
old and new element.  Stated additively to stay in `Nat`. -/
lemma filter_length_update {α : Type} (idf : α → Nat) (g : α → α) (p : α → Bool) :
    ∀ (l : List α) (a : α), (l.map idf).Nodup → a ∈ l →
      ((l.map fun x => if idf x == idf a then g x else x).filter p).length
          + (if p a then 1 else 0)
        = (l.filter p).length + (if p (g a) then 1 else 0) := by
  intro l
  induction l with
  | nil => intro a _ ha; cases ha
  | cons x xs ih =>
    intro a hnd ha
    have hnd' : (xs.map idf).Nodup := by
      simpa using hnd.of_cons
    have hx_not : idf x ∉ xs.map idf := by
      have := hnd
      rw [List.map_cons, List.nodup_cons] at this
      exact this.1
    rcases List.mem_cons.mp ha with rfl | hmem
    · -- the head is the updated element; the tail is untouched
      have htail : (xs.map fun y => if idf y == idf a then g y else y) = xs := by
        have hid : (xs.map fun y => if idf y == idf a then g y else y) = xs.map id := by
          apply List.map_congr_left
          intro y hy
          have hne : idf y ≠ idf a := fun hEq => hx_not (hEq ▸ List.mem_map_of_mem idf hy)
          simp [beq_eq_false_iff_ne.mpr hne]
        rw [hid, List.map_id]
      have hmap : ((a :: xs).map fun y => if idf y == idf a then g y else y) = g a :: xs := by
        rw [List.map_cons, htail]
        simp
      rw [hmap, List.filter_cons, List.filter_cons]
      cases hpg : p (g a) <;> cases hpa : p a <;> simp [hpg, hpa]
    · -- the head is untouched; recurse into the tail
      have hne : idf x ≠ idf a := by
        intro hEq
        exact hx_not (hEq ▸ List.mem_map_of_mem idf hmem)
      have hhead : (if idf x == idf a then g x else x) = x := by
        simp [beq_eq_false_iff_ne.mpr hne]
      have hstep := ih a hnd' hmem
      rw [List.map_cons, hhead, List.filter_cons, List.filter_cons]
      cases hpx : p x <;> simp [hpx] at hstep ⊢ <;> omega

/-- A list whose elements all fail the predicate filters to the empty list. -/
lemma filter_length_zero {α : Type} (p : α → Bool) (l : List α)
    (h : ∀ x ∈ l, p x = false) : (l.filter p).length = 0 := by
  induction l with
  | nil => rfl
  | cons x xs ih =>
    rw [List.filter_cons, h x (by simp)]
    exact ih fun y hy => h y (by simp [hy])

lemma approvedCount_append (apps : List EventApplication) (a : EventApplication) (eid : Nat) :
    approvedCount (apps ++ [a]) eid =
      approvedCount apps eid + (if isApprovedFor eid a then 1 else 0) := by
  rw [approvedCount_eq, approvedCount_eq, List.filter_append, List.length_append,
    List.filter_cons]
  cases h : isApprovedFor eid a <;> simp

/-- Ids stay intact under an id-preserving map, so `Nodup` of the ids is
transported. -/
lemma nodup_map_ids {α : Type} (idf : α → Nat) (h : α → α) (l : List α)
    (hpres : ∀ x ∈ l, idf (h x) = idf x) (hnd : (l.map idf).Nodup) :
    ((l.map h).map idf).Nodup := by
  rw [List.map_map]
  have : l.map (idf ∘ h) = l.map idf := List.map_congr_left hpres
  rw [this]
  exact hnd

/-- Two members of a list with pairwise distinct ids and the same id are
equal. -/
lemma eq_of_mem_of_id_eq {α : Type} (idf : α → Nat) {l : List α}
    (hnd : (l.map idf).Nodup) {a b : α} (ha : a ∈ l) (hb : b ∈ l)
    (hid : idf a = idf b) : a = b :=
  List.inj_on_of_nodup_map hnd ha hb hid

lemma approvedCount_withdrawAll_self (apps : List EventApplication) (eid : Nat) :
    approvedCount (withdrawApprovedApps apps eid) eid = 0 := by
  rw [approvedCount_eq]
  apply filter_length_zero
  intro x' hx'
  rcases List.mem_map.mp hx' with ⟨x, hx, rfl⟩
  by_cases hcond : (x.eventId == eid && x.status == AppStatus.approved) = true
  · rw [if_pos hcond]
    simp [isApprovedFor]
  · rw [if_neg hcond]
    simp only [Bool.not_eq_true] at hcond
    rw [isApprovedFor, hcond]

lemma approvedCount_withdrawAll_other (apps : List EventApplication) (eid eid' : Nat)
    (hne : eid' ≠ eid) :
    approvedCount (withdrawApprovedApps apps eid) eid' = approvedCount apps eid' := by
  rw [approvedCount_eq, approvedCount_eq]
  apply filter_length_map_congr
  intro x hx
  by_cases hcond : (x.eventId == eid && x.status == AppStatus.approved) = true
  · have hand := (Bool.and_eq_true _ _).mp hcond
    have hxe : x.eventId = eid := beq_iff_eq.mp hand.1
    have hbne : (eid == eid') = false := beq_eq_false_iff_ne.mpr (Ne.symm hne)
    rw [if_pos hcond]
    simp [isApprovedFor, hxe, hbne]
  · rw [if_neg hcond]

lemma approvedCount_zero_of_ref_lt {apps : List EventApplication} {n : Nat}
    (hb : ∀ a ∈ apps, a.eventId < n) : approvedCount apps n = 0 := by
  rw [approvedCount_eq]
  apply filter_length_zero
  intro x hx
  have : x.eventId ≠ n := Nat.ne_of_lt (hb x hx)
  simp [isApprovedFor, this]

lemma approvedCount_updateApplication (apps : List EventApplication)
    (a : EventApplication) (g : EventApplication → EventApplication)
    (hnd : (apps.map EventApplication.id).Nodup) (ha : a ∈ apps) (eid : Nat) :
    approvedCount (updateApplication apps a.id g) eid + (if isApprovedFor eid a then 1 else 0)
      = approvedCount apps eid + (if isApprovedFor eid (g a) then 1 else 0) := by
  rw [approvedCount_eq, approvedCount_eq]
  exact filter_length_update EventApplication.id g (isApprovedFor eid) apps a hnd ha

/-! ## Invariant preservation helpers -/

lemma countInvariant_apps_congr {s s' : EngineState}
    (hc : countInvariant s) (hev : s'.events = s.events)
    (hap : ∀ eid, approvedCount s'.applications eid = approvedCount s.applications eid) :
    countInvariant s' := by
  unfold countInvariant at hc ⊢
  intro e he
  rw [hev] at he
  rw [hap]
  exact hc e he

lemma countInvariant_events_map {s s' : EngineState}
    (hc : countInvariant s) (h : Event → Event)
    (hev : s'.events = s.events.map h) (hap : s'.applications = s.applications)
    (hpres : ∀ e ∈ s.events,
      (h e).id = e.id ∧ (h e).registeredCount = e.registeredCount ∧
      (h e).maxParticipants = e.maxParticipants) :
    countInvariant s' := by
  unfold countInvariant at hc ⊢
  intro e' he'
  rw [hev] at he'
  rcases List.mem_map.mp he' with ⟨y, hy, rfl⟩
  rcases hpres y hy with ⟨h1, h2, h3⟩
  rw [hap, h1, h2, h3]
  exact hc y hy

lemma countInvariant_append_event {s s' : EngineState} {newE : Event}
    (hc : countInvariant s)
    (hev : s'.events = s.events ++ [newE]) (hap : s'.applications = s.applications)
    (hcount0 : approvedCount s.applications newE.id = 0)
    (hreg : newE.registeredCount = 0) :
    countInvariant s' := by
  unfold countInvariant at hc ⊢
  intro e he
  rw [hev] at he
  rw [hap]
  rcases List.mem_append.mp he with hmem | hmem
  · exact hc e hmem
  · have : e = newE := by simpa using hmem
    subst this
    rw [hcount0, hreg]
    exact ⟨rfl, capacityOk_zero _⟩

lemma countInvariant_cancel {s s' : EngineState}
    (hc : countInvariant s) (eid : Nat) (t : EventStatus)
    (hev : s'.events = s.events.map
      (fun ev => if ev.id == eid then { ev with status := t, registeredCount := 0 } else ev))
    (hap : s'.applications = withdrawApprovedApps s.applications eid) :
    countInvariant s' := by
  unfold countInvariant at hc ⊢
  intro e' he'
  rw [hev] at he'
  rcases List.mem_map.mp he' with ⟨y, hy, rfl⟩
  by_cases hid : (y.id == eid) = true
  · have hyid : y.id = eid := beq_iff_eq.mp hid
    rw [if_pos hid, hap]
    constructor
    · show (0 : Nat) = approvedCount (withdrawApprovedApps s.applications eid) y.id
      rw [hyid, approvedCount_withdrawAll_self]
    · show capacityOk y.maxParticipants
        (approvedCount (withdrawApprovedApps s.applications eid) y.id)
      rw [hyid, approvedCount_withdrawAll_self]
      exact capacityOk_zero _
  · have hyne : y.id ≠ eid := by simpa using hid
    rw [if_neg hid, hap]
    show y.registeredCount = approvedCount (withdrawApprovedApps s.applications eid) y.id ∧
      capacityOk y.maxParticipants (approvedCount (withdrawApprovedApps s.applications eid) y.id)
    rw [approvedCount_withdrawAll_other _ _ _ hyne]
    exact hc y hy

lemma countInvariant_increment {s s' : EngineState} {e : Event}
    (hc : countInvariant s) (hnd : (s.events.map Event.id).Nodup) (he : e ∈ s.events)
    (hev : s'.events = s.events.map
      (fun ev => if ev.id == e.id then { ev with registeredCount := ev.registeredCount + 1 }
                 else ev))
    (hap : ∀ eid, approvedCount s'.applications eid
        = approvedCount s.applications eid + (if eid = e.id then 1 else 0))
    (hcap : ∀ m, e.maxParticipants = some m → e.registeredCount ≠ m) :
    countInvariant s' := by
  unfold countInvariant at hc ⊢
  intro e' he'
  rw [hev] at he'
  rcases List.mem_map.mp he' with ⟨y, hy, rfl⟩
  by_cases hid : (y.id == e.id) = true
  · have hye : y = e := eq_of_mem_of_id_eq Event.id hnd hy he (beq_iff_eq.mp hid)
    subst hye
    rw [if_pos hid]
    rcases hc y hy with ⟨h1, h2⟩
    constructor
    · show y.registeredCount + 1 = approvedCount s'.applications y.id
      rw [hap y.id, if_pos rfl, h1]
    · show capacityOk y.maxParticipants (approvedCount s'.applications y.id)
      rw [hap y.id, if_pos rfl]
      cases hmax : y.maxParticipants with
      | none => trivial
      | some m =>
        have hle : approvedCount s.applications y.id ≤ m := by
          have := h2
          rw [hmax] at this
          exact this
        have hne : approvedCount s.applications y.id ≠ m := by
          rw [← h1]
          exact hcap m hmax
        show approvedCount s.applications y.id + 1 ≤ m
        omega
  · have hyne : y.id ≠ e.id := by simpa using hid
    rw [if_neg hid]
    show y.registeredCount = approvedCount s'.applications y.id ∧
      capacityOk y.maxParticipants (approvedCount s'.applications y.id)
    rw [hap y.id, if_neg hyne, Nat.add_zero]
    exact hc y hy

lemma countInvariant_decrement {s s' : EngineState} (teid : Nat)
    (hc : countInvariant s)
    (hev : s'.events = s.events.map
      (fun ev => if ev.id == teid then { ev with registeredCount := ev.registeredCount - 1 }
                 else ev))
    (hap : ∀ eid, approvedCount s'.applications eid + (if eid = teid then 1 else 0)
        = approvedCount s.applications eid) :
    countInvariant s' := by
  unfold countInvariant at hc ⊢
  intro e' he'
  rw [hev] at he'
  rcases List.mem_map.mp he' with ⟨y, hy, rfl⟩
  rcases hc y hy with ⟨h1, h2⟩
  by_cases hid : (y.id == teid) = true
  · have hyid : y.id = teid := beq_iff_eq.mp hid
    have hcnt : approvedCount s'.applications y.id + 1 = approvedCount s.applications y.id := by
      have := hap y.id
      rw [if_pos hyid] at this
      exact this
    rw [if_pos hid]
    constructor
    · show y.registeredCount - 1 = approvedCount s'.applications y.id
      omega
    · show capacityOk y.maxParticipants (approvedCount s'.applications y.id)
      exact capacityOk_mono (by omega) h2
  · have hyne : y.id ≠ teid := by simpa using hid
    have hcnt : approvedCount s'.applications y.id = approvedCount s.applications y.id := by
      have := hap y.id
      rw [if_neg hyne] at this
      omega
    rw [if_neg hid]
    show y.registeredCount = approvedCount s'.applications y.id ∧
      capacityOk y.maxParticipants (approvedCount s'.applications y.id)
    rw [hcnt]
    exact ⟨h1, h2⟩

/-! ## Well-formedness helpers -/

lemma ite_pres {α β : Type} (idf2 : α → β) (c : α → Bool) (f : α → α)
    (hf : ∀ x, idf2 (f x) = idf2 x) (x : α) :
    idf2 (if c x then f x else x) = idf2 x := by
  by_cases hcx : c x = true
  · rw [if_pos hcx, hf]
  · rw [if_neg hcx]

lemma nodup_map_append_fresh {α : Type} (idf : α → Nat) (l : List α) (a : α) (n : Nat)
    (hnd : (l.map idf).Nodup) (hb : ∀ x ∈ l, idf x < n) (ha : idf a = n) :
    ((l ++ [a]).map idf).Nodup := by
  rw [List.map_append, List.nodup_append]
  refine ⟨hnd, by simp, ?_⟩
  intro x hx
  rcases List.mem_map.mp hx with ⟨y, hy, rfl⟩
  simp [ha]
  exact Nat.ne_of_lt (hb y hy)

lemma forall_mem_map_lt {α : Type} (idf : α → Nat) (h : α → α) (l : List α) (n m : Nat)
    (hpres : ∀ x ∈ l, idf (h x) = idf x) (hb : ∀ x ∈ l, idf x < n) (hnm : n ≤ m) :
    ∀ y ∈ l.map h, idf y < m := by
  intro y hy
  rcases List.mem_map.mp hy with ⟨x, hx, rfl⟩
  rw [hpres x hx]
  exact Nat.lt_of_lt_of_le (hb x hx) hnm

lemma forall_mem_append_lt {α : Type} (idf : α → Nat) (l : List α) (a : α) (n m : Nat)
    (hb : ∀ x ∈ l, idf x < n) (ha : idf a < m) (hnm : n ≤ m) :
    ∀ y ∈ l ++ [a], idf y < m := by
  intro y hy
  rcases List.mem_append.mp hy with hmem | hmem
  · exact Nat.lt_of_lt_of_le (hb y hmem) hnm
  · have : y = a := by simpa using hmem
    subst this
    exact ha

lemma forall_mem_lt_mono {α : Type} (idf : α → Nat) (l : List α) (n m : Nat)
    (hb : ∀ x ∈ l, idf x < n) (hnm : n ≤ m) : ∀ y ∈ l, idf y < m :=
  fun y hy => Nat.lt_of_lt_of_le (hb y hy) hnm

/-! ## Per-operation invariant preservation -/

lemma invariant_create_event {s : EngineState} (p : EventCreatePayload)
    (h : EngineInvariant s) : EngineInvariant (create_event s p).1 := by
  rcases h with ⟨⟨hndE, hndA, hbE, hbA, hbRef⟩, hc⟩
  refine ⟨⟨?_, ?_, ?_, ?_, ?_⟩, ?_⟩
  · exact nodup_map_append_fresh Event.id s.events _ s.nextId hndE hbE rfl
  · exact hndA
  · exact forall_mem_append_lt Event.id s.events _ s.nextId (s.nextId + 1) hbE
      (Nat.lt_succ_self _) (Nat.le_succ _)
  · exact forall_mem_lt_mono EventApplication.id s.applications _ _ hbA (Nat.le_succ _)
  · exact forall_mem_lt_mono EventApplication.eventId s.applications _ _ hbRef (Nat.le_succ _)
  · exact countInvariant_append_event hc rfl rfl
      (approvedCount_zero_of_ref_lt hbRef) rfl

lemma invariant_acceptEventTransition {s : EngineState} {e : Event}
    (t : EventStatus) (actor : Actor) (comment : Option String)
    (h : EngineInvariant s) (_he : e ∈ s.events) :
    EngineInvariant (acceptEventTransition s e t actor comment) := by
  rcases h with ⟨⟨hndE, hndA, hbE, hbA, hbRef⟩, hc⟩
  have hidpres : ∀ x ∈ s.events,
      ((fun ev => if ev.id == e.id then
          { ev with
            status := t
            registeredCount :=
              if (t == EventStatus.cancelled) = true then 0 else ev.registeredCount }
        else ev) x).id = x.id := by
    intro x _
    by_cases hcx : (x.id == e.id) = true <;> simp [hcx]
  by_cases hcan : (t == EventStatus.cancelled) = true
  · -- cancellation: applications are force-withdrawn, the count resets to 0
    have hap : (acceptEventTransition s e t actor comment).applications
        = withdrawApprovedApps s.applications e.id := by
      show (if (t == EventStatus.cancelled) = true
            then withdrawApprovedApps s.applications e.id else s.applications)
          = withdrawApprovedApps s.applications e.id
      rw [if_pos hcan]
    have happres : ∀ x ∈ s.applications,
        ((fun a => if a.eventId == e.id && a.status == AppStatus.approved
            then { a with status := AppStatus.withdrawn } else a) x).id = x.id := by
      intro x _
      by_cases hcx : (x.eventId == e.id && x.status == AppStatus.approved) = true <;>
        simp [hcx]
    have happres2 : ∀ x ∈ s.applications,
        ((fun a => if a.eventId == e.id && a.status == AppStatus.approved
            then { a with status := AppStatus.withdrawn } else a) x).eventId = x.eventId := by
      intro x _
      by_cases hcx : (x.eventId == e.id && x.status == AppStatus.approved) = true <;>
        simp [hcx]
    refine ⟨⟨?_, ?_, ?_, ?_, ?_⟩, ?_⟩
    · exact nodup_map_ids Event.id _ s.events hidpres hndE
    · rw [hap]
      exact nodup_map_ids EventApplication.id _ s.applications happres hndA
    · exact forall_mem_map_lt Event.id _ s.events s.nextId (s.nextId + 1) hidpres hbE
        (Nat.le_succ _)
    · rw [hap]
      exact forall_mem_map_lt EventApplication.id _ s.applications s.nextId (s.nextId + 1)
        happres hbA (Nat.le_succ _)
    · rw [hap]
      exact forall_mem_map_lt EventApplication.eventId _ s.applications s.nextId (s.nextId + 1)
        happres2 hbRef (Nat.le_succ _)
    · refine countInvariant_cancel hc e.id t ?_ hap
      show updateEvent s.events e.id _ = _
      unfold updateEvent
      apply List.map_congr_left
      intro x _
      by_cases hcx : (x.id == e.id) = true <;> simp [hcx, hcan]
  · -- any non-cancelling transition: counts and applications are unchanged
    have hap : (acceptEventTransition s e t actor comment).applications = s.applications := by
      show (if (t == EventStatus.cancelled) = true
            then withdrawApprovedApps s.applications e.id else s.applications)
          = s.applications
      rw [if_neg hcan]
    refine ⟨⟨?_, ?_, ?_, ?_, ?_⟩, ?_⟩
    · exact nodup_map_ids Event.id _ s.events hidpres hndE
    · rw [hap]; exact hndA
    · exact forall_mem_map_lt Event.id _ s.events s.nextId (s.nextId + 1) hidpres hbE
        (Nat.le_succ _)
    · rw [hap]
      exact forall_mem_lt_mono EventApplication.id s.applications _ _ hbA (Nat.le_succ _)
    · rw [hap]
      exact forall_mem_lt_mono EventApplication.eventId s.applications _ _ hbRef (Nat.le_succ _)
    · refine countInvariant_events_map hc _ rfl hap ?_
      intro x _
      refine ⟨?_, ?_, ?_⟩ <;>
        by_cases hcx : (x.id == e.id) = true <;> simp [hcx, hcan]

lemma invariant_transition_event {s s' : EngineState} {eid : Nat} {t : EventStatus}
    {a : Actor} {c : Option String} {td nm : Nat} {ev : Event}
    {ns : List NotificationIntent}
    (h : EngineInvariant s)
    (hok : transition_event s eid t a c td nm = .ok (s', ev, ns)) :
    EngineInvariant s' := by
  unfold transition_event at hok
  split at hok
  · cases hok
  · rename_i e hfind
    have he : e ∈ s.events := List.mem_of_find?_eq_some hfind
    by_cases h1 : (!allowedTransition e.status t) = true
    · rw [if_pos h1] at hok; cases hok
    · rw [if_neg h1] at hok
      by_cases h2 : (!transitionPermitted e t a) = true
      · rw [if_pos h2] at hok; cases hok
      · rw [if_neg h2] at hok
        cases hchk : eventTransitionCheck s e t c td nm with
        | some err => rw [hchk] at hok; cases hok
        | none =>
          rw [hchk] at hok
          have hs' : acceptEventTransition s e t a c = s' := by
            have := congrArg (fun r => match r with
              | Except.ok (st, _, _) => st
              | Except.error _ => s) hok
            simpa using this
          rw [← hs']
          exact invariant_acceptEventTransition t a c h he

lemma eventFull_false {e : Event} (h : eventFull e = false) :
    ∀ m, e.maxParticipants = some m → e.registeredCount ≠ m := by
  intro m hm
  unfold eventFull at h
  rw [hm] at h
  simpa using h

lemma invariant_submit_application {s s' : EngineState} {eid aid : Nat} {mot : String}
    {app : EventApplication}
    (h : EngineInvariant s)
    (hok : submit_application s eid aid mot = .ok (s', app)) :
    EngineInvariant s' := by
  rcases h with ⟨⟨hndE, hndA, hbE, hbA, hbRef⟩, hc⟩
  unfold submit_application at hok
  split at hok
  · cases hok
  · rename_i e hfind
    have hfind' : s.events.find? (fun x => x.id == eid) = some e := hfind
    have he : e ∈ s.events := List.mem_of_find?_eq_some hfind'
    have heid : e.id = eid := by
      have hp := List.find?_some hfind'
      simpa using hp
    by_cases h1 : (e.status != EventStatus.approved) = true
    · rw [if_pos h1] at hok; cases hok
    · rw [if_neg h1] at hok
      by_cases h2 : activeApplicationExists s.applications eid aid = true
      · rw [if_pos h2] at hok; cases hok
      · rw [if_neg h2] at hok
        by_cases h3 : e.needApproveCandidates = true
        · rw [if_pos h3] at hok
          have hs' : ({ s with
              nextId := s.nextId + 1
              applications := s.applications ++ [⟨s.nextId, eid, aid, .submitted, mot⟩] }
              : EngineState) = s' := by
            have := congrArg (fun r => match r with
              | Except.ok (st, _) => st
              | Except.error _ => s) hok
            simpa using this
          rw [← hs']
          refine ⟨⟨hndE, ?_, ?_, ?_, ?_⟩, ?_⟩
          · exact nodup_map_append_fresh EventApplication.id s.applications _ s.nextId
              hndA hbA rfl
          · exact forall_mem_lt_mono Event.id s.events _ _ hbE (Nat.le_succ _)
          · exact forall_mem_append_lt EventApplication.id s.applications _ s.nextId
              (s.nextId + 1) hbA (Nat.lt_succ_self _) (Nat.le_succ _)
          · refine forall_mem_append_lt EventApplication.eventId s.applications _ s.nextId
              (s.nextId + 1) hbRef ?_ (Nat.le_succ _)
            show eid < s.nextId + 1
            rw [← heid]
            exact Nat.lt_succ_of_lt (hbE e he)
          · refine countInvariant_apps_congr hc rfl ?_
            intro eid'
            show approvedCount (s.applications ++ [⟨s.nextId, eid, aid, .submitted, mot⟩]) eid'
              = approvedCount s.applications eid'
            rw [approvedCount_append]
            simp [isApprovedFor]
        · rw [if_neg h3] at hok
          by_cases h4 : eventFull e = true
          · rw [if_pos h4] at hok; cases hok
          · rw [if_neg h4] at hok
            have hs' : ({ s with
                nextId := s.nextId + 2
                events := updateEvent s.events e.id
                  (fun ev => { ev with registeredCount := ev.registeredCount + 1 })
                applications := s.applications ++ [⟨s.nextId, eid, aid, .approved, mot⟩]
                applicationHistory := s.applicationHistory
                  ++ [⟨s.nextId + 1, s.nextId, "", .submitted, .approved, aid⟩] }
                : EngineState) = s' := by
              have := congrArg (fun r => match r with
                | Except.ok (st, _) => st
                | Except.error _ => s) hok
              simpa using this
            rw [← hs']
            have hidpres : ∀ x ∈ s.events,
                ((fun ev => if ev.id == e.id then
                    { ev with registeredCount := ev.registeredCount + 1 } else ev) x).id
                  = x.id := by
              intro x _
              by_cases hcx : (x.id == e.id) = true <;> simp [hcx]
            refine ⟨⟨?_, ?_, ?_, ?_, ?_⟩, ?_⟩
            · exact nodup_map_ids Event.id _ s.events hidpres hndE
            · exact nodup_map_append_fresh EventApplication.id s.applications _ s.nextId
                hndA hbA rfl
            · exact forall_mem_map_lt Event.id _ s.events s.nextId (s.nextId + 2) hidpres
                hbE (by omega)
            · refine forall_mem_append_lt EventApplication.id s.applications _ s.nextId
                (s.nextId + 2) hbA ?_ (by omega)
              show s.nextId < s.nextId + 2
              omega
            · refine forall_mem_append_lt EventApplication.eventId s.applications _ s.nextId
                (s.nextId + 2) hbRef ?_ (by omega)
              show eid < s.nextId + 2
              rw [← heid]
              exact Nat.lt_of_lt_of_le (hbE e he) (by omega)
            · refine countInvariant_increment hc hndE he rfl ?_ (eventFull_false
                (Bool.not_eq_true _ ▸ h4))
              intro eid'
              show approvedCount (s.applications ++ [⟨s.nextId, eid, aid, .approved, mot⟩]) eid'
                = approvedCount s.applications eid' + (if eid' = e.id then 1 else 0)
              rw [approvedCount_append]
              by_cases heq : eid' = e.id
              · simp [isApprovedFor, heq, heid]
              · have : (eid == eid') = false := by
                  rw [beq_eq_false_iff_ne]
                  rw [← heid]
                  exact fun hEq => heq hEq.symm
                simp [isApprovedFor, this, heq]

lemma invariant_decide_application {s s' : EngineState} {apl : Nat} {d : Decision}
    {actor : Actor} {c : Option String} {app : EventApplication}
    {ns : List NotificationIntent}
    (h : EngineInvariant s)
    (hok : decide_application s apl d actor c = .ok (s', app, ns)) :
    EngineInvariant s' := by
  rcases h with ⟨⟨hndE, hndA, hbE, hbA, hbRef⟩, hc⟩
  unfold decide_application at hok
  split at hok
  · cases hok
  · rename_i a hfinda
    have hfinda' : s.applications.find? (fun x => x.id == apl) = some a := hfinda
    have ha : a ∈ s.applications := List.mem_of_find?_eq_some hfinda'
    split at hok
    · cases hok
    · rename_i e hfinde
      have hfinde' : s.events.find? (fun x => x.id == a.eventId) = some e := hfinde
      have he : e ∈ s.events := List.mem_of_find?_eq_some hfinde'
      have heid : e.id = a.eventId := by
        have hp := List.find?_some hfinde'
        simpa using hp
      by_cases h1 : (!(actor.role == UserRole.curator || actor.role == UserRole.admin)) = true
      · rw [if_pos h1] at hok; cases hok
      · rw [if_neg h1] at hok
        by_cases h2 : (a.status != AppStatus.submitted) = true
        · rw [if_pos h2] at hok; cases hok
        · rw [if_neg h2] at hok
          have hasub : a.status = AppStatus.submitted := by
            simpa using h2
          cases d with
          | reject =>
            have hs' : ({ s with
                nextId := s.nextId + 1
                applications := updateApplication s.applications a.id
                  (fun x => { x with status := .rejected })
                applicationHistory := s.applicationHistory
                  ++ [⟨s.nextId, a.id, c.getD "", a.status, .rejected, actor.id⟩] }
                : EngineState) = s' := by
              have := congrArg (fun r => match r with
                | Except.ok (st, _, _) => st
                | Except.error _ => s) hok
              simpa using this
            rw [← hs']
            have happres : ∀ x ∈ s.applications,
                ((fun x => if x.id == a.id then
                    ({ x with status := AppStatus.rejected } : EventApplication)
                  else x) x).id = x.id := by
              intro x _
              by_cases hcx : (x.id == a.id) = true <;> simp [hcx]
            have happres2 : ∀ x ∈ s.applications,
                ((fun x => if x.id == a.id then
                    ({ x with status := AppStatus.rejected } : EventApplication)
                  else x) x).eventId = x.eventId := by
              intro x _
              by_cases hcx : (x.id == a.id) = true <;> simp [hcx]
            refine ⟨⟨hndE, ?_, ?_, ?_, ?_⟩, ?_⟩
            · exact nodup_map_ids EventApplication.id _ s.applications happres hndA
            · exact forall_mem_lt_mono Event.id s.events _ _ hbE (Nat.le_succ _)
            · exact forall_mem_map_lt EventApplication.id _ s.applications s.nextId
                (s.nextId + 1) happres hbA (Nat.le_succ _)
            · exact forall_mem_map_lt EventApplication.eventId _ s.applications s.nextId
                (s.nextId + 1) happres2 hbRef (Nat.le_succ _)
            · refine countInvariant_apps_congr hc rfl ?_
              intro eid'
              have hupd := approvedCount_updateApplication s.applications a
                (fun x => { x with status := AppStatus.rejected }) hndA ha eid'
              have hfa : isApprovedFor eid' a = false := by
                simp [isApprovedFor, hasub]
              have hfg : isApprovedFor eid'
                  ({ a with status := AppStatus.rejected } : EventApplication) = false := by
                simp [isApprovedFor]
              rw [hfa, hfg] at hupd
              simpa using hupd
          | approve =>
            by_cases h4 : eventFull e = true
            · rw [if_pos h4] at hok; cases hok
            · rw [if_neg h4] at hok
              have hs' : ({ s with
                  nextId := s.nextId + 1
                  events := updateEvent s.events e.id
                    (fun ev => { ev with registeredCount := ev.registeredCount + 1 })
                  applications := updateApplication s.applications a.id
                    (fun x => { x with status := .approved })
                  applicationHistory := s.applicationHistory
                    ++ [⟨s.nextId, a.id, c.getD "", a.status, .approved, actor.id⟩] }
                  : EngineState) = s' := by
                have := congrArg (fun r => match r with
                  | Except.ok (st, _, _) => st
                  | Except.error _ => s) hok
                simpa using this
              rw [← hs']
              have hidpres : ∀ x ∈ s.events,
                  ((fun ev => if ev.id == e.id then
                      { ev with registeredCount := ev.registeredCount + 1 } else ev) x).id
                    = x.id := by
                intro x _
                by_cases hcx : (x.id == e.id) = true <;> simp [hcx]
              have happres : ∀ x ∈ s.applications,
                  ((fun x => if x.id == a.id then
                      ({ x with status := AppStatus.approved } : EventApplication)
                    else x) x).id = x.id := by
                intro x _
                by_cases hcx : (x.id == a.id) = true <;> simp [hcx]
              have happres2 : ∀ x ∈ s.applications,
                  ((fun x => if x.id == a.id then
                      ({ x with status := AppStatus.approved } : EventApplication)
                    else x) x).eventId = x.eventId := by
                intro x _
                by_cases hcx : (x.id == a.id) = true <;> simp [hcx]
              refine ⟨⟨?_, ?_, ?_, ?_, ?_⟩, ?_⟩
              · exact nodup_map_ids Event.id _ s.events hidpres hndE
              · exact nodup_map_ids EventApplication.id _ s.applications happres hndA
              · exact forall_mem_map_lt Event.id _ s.events s.nextId (s.nextId + 1) hidpres
                  hbE (Nat.le_succ _)
              · exact forall_mem_map_lt EventApplication.id _ s.applications s.nextId
                  (s.nextId + 1) happres hbA (Nat.le_succ _)
              · exact forall_mem_map_lt EventApplication.eventId _ s.applications s.nextId
                  (s.nextId + 1) happres2 hbRef (Nat.le_succ _)
              · refine countInvariant_increment hc hndE he rfl ?_ (eventFull_false
                  (Bool.not_eq_true _ ▸ h4))
                intro eid'
                show approvedCount (updateApplication s.applications a.id
                    (fun x => { x with status := .approved })) eid'
                  = approvedCount s.applications eid' + (if eid' = e.id then 1 else 0)
                have hupd := approvedCount_updateApplication s.applications a
                  (fun x => { x with status := AppStatus.approved }) hndA ha eid'
                have hfa : isApprovedFor eid' a = false := by
                  simp [isApprovedFor, hasub]
                have hfg : isApprovedFor eid'
                    ({ a with status := AppStatus.approved } : EventApplication)
                    = (a.eventId == eid') := by
                  simp [isApprovedFor]
                rw [hfa, hfg] at hupd
                by_cases heq : eid' = e.id
                · have hb : (a.eventId == eid') = true := by
                    rw [beq_iff_eq, heq, heid]
                  rw [hb] at hupd
                  simp at hupd
                  rw [if_pos heq]
                  omega
                · have hb : (a.eventId == eid') = false := by
                    rw [beq_eq_false_iff_ne, ← heid]
                    exact fun hEq => heq hEq.symm
                  rw [hb] at hupd
                  simp at hupd
                  rw [if_neg heq]
                  omega

lemma invariant_withdraw_application {s s' : EngineState} {apl : Nat} {actor : Actor}
    {app : EventApplication}
    (h : EngineInvariant s)
    (hok : withdraw_application s apl actor = .ok (s', app)) :
    EngineInvariant s' := by
  rcases h with ⟨⟨hndE, hndA, hbE, hbA, hbRef⟩, hc⟩
  unfold withdraw_application at hok
  split at hok
  · cases hok
  · rename_i a hfinda
    have hfinda' : s.applications.find? (fun x => x.id == apl) = some a := hfinda
    have ha : a ∈ s.applications := List.mem_of_find?_eq_some hfinda'
    by_cases h1 : (!(actor.id == a.applicantId || actor.role == UserRole.curator
        || actor.role == UserRole.admin)) = true
    · rw [if_pos h1] at hok; cases hok
    · rw [if_neg h1] at hok
      by_cases h2 : (a.status == AppStatus.withdrawn) = true
      · rw [if_pos h2] at hok
        -- idempotent no-op: the state is returned unchanged
        have hs' : s = s' := by
          have := congrArg (fun r => match r with
            | Except.ok (st, _) => st
            | Except.error _ => s) hok
          simpa using this
        rw [← hs']
        exact ⟨⟨hndE, hndA, hbE, hbA, hbRef⟩, hc⟩
      · rw [if_neg h2] at hok
        have hs' : ({ s with
            nextId := s.nextId + 1
            events := if a.status == AppStatus.approved then
                updateEvent s.events a.eventId
                  (fun ev => { ev with registeredCount := ev.registeredCount - 1 })
              else s.events
            applications := updateApplication s.applications a.id
              (fun x => { x with status := .withdrawn })
            applicationHistory := s.applicationHistory
              ++ [⟨s.nextId, a.id, "", a.status, .withdrawn, actor.id⟩] }
            : EngineState) = s' := by
          have := congrArg (fun r => match r with
            | Except.ok (st, _) => st
            | Except.error _ => s) hok
          simpa using this
        rw [← hs']
        have happres : ∀ x ∈ s.applications,
            ((fun x => if x.id == a.id then
                ({ x with status := AppStatus.withdrawn } : EventApplication)
              else x) x).id = x.id := by
          intro x _
          by_cases hcx : (x.id == a.id) = true <;> simp [hcx]
        have happres2 : ∀ x ∈ s.applications,
            ((fun x => if x.id == a.id then
                ({ x with status := AppStatus.withdrawn } : EventApplication)
              else x) x).eventId = x.eventId := by
          intro x _
          by_cases hcx : (x.id == a.id) = true <;> simp [hcx]
        have hupd := fun eid' => approvedCount_updateApplication s.applications a
          (fun x => { x with status := AppStatus.withdrawn }) hndA ha eid'
        by_cases h3 : (a.status == AppStatus.approved) = true
        · -- prior status APPROVED: the parent event's counter is decremented
          have hidpres : ∀ x ∈ s.events,
              ((fun ev => if ev.id == a.eventId then
                  { ev with registeredCount := ev.registeredCount - 1 } else ev) x).id
                = x.id := by
            intro x _
            by_cases hcx : (x.id == a.eventId) = true <;> simp [hcx]
          refine ⟨⟨?_, ?_, ?_, ?_, ?_⟩, ?_⟩
          · rw [if_pos h3]
            exact nodup_map_ids Event.id _ s.events hidpres hndE
          · exact nodup_map_ids EventApplication.id _ s.applications happres hndA
          · rw [if_pos h3]
            exact forall_mem_map_lt Event.id _ s.events s.nextId (s.nextId + 1) hidpres
              hbE (Nat.le_succ _)
          · exact forall_mem_map_lt EventApplication.id _ s.applications s.nextId
              (s.nextId + 1) happres hbA (Nat.le_succ _)
          · exact forall_mem_map_lt EventApplication.eventId _ s.applications s.nextId
              (s.nextId + 1) happres2 hbRef (Nat.le_succ _)
          · refine countInvariant_decrement a.eventId hc ?_ ?_
            · show (if (a.status == AppStatus.approved) = true then _ else s.events) = _
              rw [if_pos h3]
              rfl
            · intro eid'
              have hupd' := hupd eid'
              have hfg : isApprovedFor eid'
                  ({ a with status := AppStatus.withdrawn } : EventApplication) = false := by
                simp [isApprovedFor]
              rw [hfg] at hupd'
              show approvedCount (updateApplication s.applications a.id
                  (fun x => { x with status := .withdrawn })) eid'
                  + (if eid' = a.eventId then 1 else 0)
                = approvedCount s.applications eid'
              by_cases heq : eid' = a.eventId
              · have hfa : isApprovedFor eid' a = true := by
                  simp [isApprovedFor, heq, beq_iff_eq.mp h3]
                rw [hfa] at hupd'
                simp at hupd'
                rw [if_pos heq]
                omega
              · have hfa : isApprovedFor eid' a = false := by
                  have hb : (a.eventId == eid') = false := by
                    rw [beq_eq_false_iff_ne]
                    exact fun hEq => heq hEq.symm
                  simp [isApprovedFor, hb]
                rw [hfa] at hupd'
                simp at hupd'
                rw [if_neg heq]
                omega
        · -- prior status SUBMITTED or REJECTED: no counter change
          have hsna : isApprovedFor = isApprovedFor := rfl
          refine ⟨⟨?_, ?_, ?_, ?_, ?_⟩, ?_⟩
          · rw [if_neg h3]
            exact hndE
          · exact nodup_map_ids EventApplication.id _ s.applications happres hndA
          · rw [if_neg h3]
            exact forall_mem_lt_mono Event.id s.events _ _ hbE (Nat.le_succ _)
          · exact forall_mem_map_lt EventApplication.id _ s.applications s.nextId
              (s.nextId + 1) happres hbA (Nat.le_succ _)
          · exact forall_mem_map_lt EventApplication.eventId _ s.applications s.nextId
              (s.nextId + 1) happres2 hbRef (Nat.le_succ _)
          · refine countInvariant_apps_congr hc ?_ ?_
            · show (if (a.status == AppStatus.approved) = true then _ else s.events) = _
              rw [if_neg h3]
            · intro eid'
              have hupd' := hupd eid'
              have hfa : isApprovedFor eid' a = false := by
                have hb : (a.status == AppStatus.approved) = false := by
                  simpa using h3
                simp [isApprovedFor, hb]
              have hfg : isApprovedFor eid'
                  ({ a with status := AppStatus.withdrawn } : EventApplication) = false := by
                simp [isApprovedFor]
              rw [hfa, hfg] at hupd'
              show approvedCount (updateApplication s.applications a.id
                  (fun x => { x with status := .withdrawn })) eid'
                = approvedCount s.applications eid'
              simpa using hupd'

/-- C1: after every public operation of the engine, every event's
`registeredCount` equals the number of `EventApplication` rows for that event
with status APPROVED, and when `maxParticipants` is bounded that number never
exceeds `maxParticipants` (the `capacityOk` conjunct of `countInvariant`).
Stated as preservation: from any well-formed state satisfying the property,
the state left behind by any public operation (`applyOp`, which keeps the old
state when the operation fails or only reads) satisfies it again. -/
theorem registered_count_consistency (op : EngineOp) (s : EngineState)
    (h : EngineInvariant s) :
    countInvariant (applyOp op s) ∧ EngineInvariant (applyOp op s) := by
  have hmain : EngineInvariant (applyOp op s) := by
    cases op with
    | createEvent p => exact invariant_create_event p h
    | transitionEvent eid t a c td nm =>
      show EngineInvariant (match transition_event s eid t a c td nm with
        | .ok (s', _, _) => s'
        | .error _ => s)
      cases hres : transition_event s eid t a c td nm with
      | ok r =>
        rcases r with ⟨s', ev, ns⟩
        exact invariant_transition_event h hres
      | error e => exact h
    | submitApplication eid aid mot =>
      show EngineInvariant (match submit_application s eid aid mot with
        | .ok (s', _) => s'
        | .error _ => s)
      cases hres : submit_application s eid aid mot with
      | ok r =>
        rcases r with ⟨s', app⟩
        exact invariant_submit_application h hres
      | error e => exact h
    | decideApplication apl d actor c =>
      show EngineInvariant (match decide_application s apl d actor c with
        | .ok (s', _, _) => s'
        | .error _ => s)
      cases hres : decide_application s apl d actor c with
      | ok r =>
        rcases r with ⟨s', app, ns⟩
        exact invariant_decide_application h hres
      | error e => exact h
    | withdrawApplication apl actor =>
      show EngineInvariant (match withdraw_application s apl actor with
        | .ok (s', _) => s'
        | .error _ => s)
      cases hres : withdraw_application s apl actor with
      | ok r =>
        rcases r with ⟨s', app⟩
        exact invariant_withdraw_application h hres
      | error e => exact h
    | checkRoomAvailability _ _ _ _ _ => exact h
    | listEventHistory _ => exact h
    | listApplicationHistory _ => exact h
  exact ⟨hmain.2, hmain⟩

/-- Concrete engine state for the C1 witness: one APPROVED event with
capacity 2 and no applications yet. -/
def witnessEngineState : EngineState :=
  ⟨1, [⟨0, "demo", "a demo event", 10, 600, 660, some 2, 0, .approved, 5, 6, some 1, none, false⟩],
   [], [], []⟩

/-- Witness for C1: the invariant holds of the concrete state and is carried
through a successful auto-approving `submit_application`. -/
theorem registered_count_consistency_witness :
    EngineInvariant witnessEngineState ∧
    countInvariant (applyOp (.submitApplication 0 42 "please") witnessEngineState) :=
  ⟨by decide,
   (registered_count_consistency (.submitApplication 0 42 "please") witnessEngineState
      (by decide)).1⟩

/-- C5: whenever the requested target status is not an allowed transition from
the found event's current status, `transition_event` fails with an
`InvalidStateError` whose detail names the current and the requested status,
and the engine state is unchanged (`applyOp` returns `s` itself); moreover no
transition at all is allowed out of COMPLETED, so in particular every request
from COMPLETED fails this way. -/
theorem invalid_transition_rejected (s : EngineState) (eid : Nat) (t : EventStatus)
    (a : Actor) (c : Option String) (td nm : Nat) (e : Event)
    (hfind : findEvent s eid = some e)
    (hillegal : allowedTransition e.status t = false) :
    transition_event s eid t a c td nm
      = .error (.invalidState (invalidTransitionDetail e.status t))
    ∧ applyOp (.transitionEvent eid t a c td nm) s = s
    ∧ (∀ t', allowedTransition .completed t' = false) := by
  have hcond : (!allowedTransition e.status t) = true := by
    rw [hillegal]
    rfl
  have herr : transition_event s eid t a c td nm
      = .error (.invalidState (invalidTransitionDetail e.status t)) := by
    unfold transition_event
    rw [hfind]
    show (if !allowedTransition e.status t then
        Except.error (SvcError.invalidState (invalidTransitionDetail e.status t))
      else _) = _
    rw [if_pos hcond]
  refine ⟨herr, ?_, ?_⟩
  · show (match transition_event s eid t a c td nm with
      | .ok (s', _, _) => s'
      | .error _ => s) = s
    rw [herr]
  · intro t'
    cases t' <;> rfl

/-- Event used by the C5 witness: it is COMPLETED, so every further request
must be rejected. -/
def witnessCompletedEvent : Event :=
  ⟨0, "done", "a finished event", 10, 600, 660, none, 0, .completed, 5, 6, some 1, none, false⟩

/-- Engine state for the C5 witness. -/
def witnessCompletedState : EngineState :=
  ⟨1, [witnessCompletedEvent], [], [], []⟩

/-- Witness for C5: a concrete COMPLETED→PENDING request fails with the
`InvalidStateError` naming both statuses and leaves the state unchanged. -/
theorem invalid_transition_rejected_witness :
    transition_event witnessCompletedState 0 .pending ⟨5, .admin⟩ none 0 0
      = .error (.invalidState (invalidTransitionDetail .completed .pending))
    ∧ applyOp (.transitionEvent 0 .pending ⟨5, .admin⟩ none 0 0) witnessCompletedState
      = witnessCompletedState :=
  have h := invalid_transition_rejected witnessCompletedState 0 .pending ⟨5, .admin⟩ none 0 0
    witnessCompletedEvent (by decide) (by decide)
  ⟨h.1, h.2.1⟩

/-- Event A of the booking scenario: APPROVED in room 1 on day 5,
10:00–11:00 (600–660 minutes). -/
def scenarioEventA : Event :=
  ⟨10, "event A", "first booking", 5, 600, 660, none, 0, .approved, 5, 6, some 1, none, false⟩

/-- Event B requesting the overlapping slot 10:30–11:30 (630–690). -/
def scenarioEventBOverlap : Event :=
  ⟨11, "event B", "second booking", 5, 630, 690, none, 0, .pending, 5, 6, some 1, none, false⟩

/-- Event B requesting the back-to-back slot 11:00–12:00 (660–720). -/
def scenarioEventBBack : Event :=
  ⟨11, "event B", "second booking", 5, 660, 720, none, 0, .pending, 5, 6, some 1, none, false⟩

/-- Scenario state with the overlapping request pending. -/
def scenarioOverlapState : EngineState :=
  ⟨12, [scenarioEventA, scenarioEventBOverlap], [], [], []⟩

/-- Scenario state with the back-to-back request pending. -/
def scenarioBackState : EngineState :=
  ⟨12, [scenarioEventA, scenarioEventBBack], [], [], []⟩

/-- C3: the Booking Conflict Checker reports a conflict between a candidate
`(room, date, start, end)` and an existing event iff that event occupies the
same room on the same date, has status PENDING or APPROVED, and
`start < other.end AND other.start < end`; back-to-back intervals never
conflict; and concretely, with event A APPROVED at 600–660 in room 1, a
PENDING→APPROVED request for the overlapping 630–690 fails with
`ConflictError` leaving the state unchanged, while the back-to-back 660–720
request succeeds and writes APPROVED. -/
theorem booking_conflict_rule :
    (∀ (evs : List Event) (roomId date st en : Nat) (e : Event),
      e ∈ conflictingEvents evs roomId date st en none ↔
        e ∈ evs ∧ e.roomId = some roomId ∧ e.eventDate = date ∧
        (e.status = .pending ∨ e.status = .approved) ∧ st < e.endTime ∧ e.startTime < en)
    ∧ (∀ (evs : List Event) (roomId date st en : Nat) (e : Event),
        st = e.endTime ∨ e.startTime = en →
        e ∉ conflictingEvents evs roomId date st en none)
    ∧ transition_event scenarioOverlapState 11 .approved ⟨7, .curator⟩ none 0 0
        = .error (.conflictErr "room booking overlap detected")
    ∧ applyOp (.transitionEvent 11 .approved ⟨7, .curator⟩ none 0 0) scenarioOverlapState
        = scenarioOverlapState
    ∧ findEvent (applyOp (.transitionEvent 11 .approved ⟨7, .curator⟩ none 0 0)
          scenarioBackState) 11
        = some { scenarioEventBBack with status := .approved } := by
  have hmem : ∀ (evs : List Event) (roomId date st en : Nat) (e : Event),
      e ∈ conflictingEvents evs roomId date st en none ↔
        e ∈ evs ∧ e.roomId = some roomId ∧ e.eventDate = date ∧
        (e.status = .pending ∨ e.status = .approved) ∧ st < e.endTime ∧ e.startTime < en := by
    intro evs roomId date st en e
    unfold conflictingEvents
    rw [List.mem_filter]
    simp [and_assoc]
  refine ⟨hmem, ?_, by rfl, by rfl, by rfl⟩
  intro evs roomId date st en e hb hmem'
  rcases (hmem evs roomId date st en e).mp hmem' with ⟨_, _, _, _, h5, h6⟩
  rcases hb with hb | hb
  · rw [hb] at h5
    exact Nat.lt_irrefl _ h5
  · rw [hb] at h6
    exact Nat.lt_irrefl _ h6

/-- Witness for C3: at concrete values, event A is reported as a conflict of
the overlapping 630–690 candidate and is not reported for the back-to-back
660–720 candidate. -/
theorem booking_conflict_rule_witness :
    scenarioEventA ∉ conflictingEvents [scenarioEventA] 1 5 660 720 none ∧
    scenarioEventA ∈ conflictingEvents [scenarioEventA] 1 5 630 690 none :=
  ⟨booking_conflict_rule.2.1 [scenarioEventA] 1 5 660 720 scenarioEventA (Or.inl rfl),
   (booking_conflict_rule.1 [scenarioEventA] 1 5 630 690 scenarioEventA).mpr
     (by refine ⟨by simp, rfl, rfl, Or.inr rfl, by decide, by decide⟩)⟩

/-- C4: the exception handler of `src/main.py` maps every service error to
its human-readable detail together with the status decided by its kind: 404
for `EntityNotFoundError`, 409 for `EntityConflictError`, 400 for
`InvalidStateError`, and 400 for every other `ServiceError` (including
`ConflictError`, `ForbiddenError` and the base class).  The handler is a pure
function of the error; no retry happens. -/
theorem service_error_status_mapping :
    (∀ d, service_error_handler (.entityNotFound d) = (404, d))
    ∧ (∀ d, service_error_handler (.entityConflict d) = (409, d))
    ∧ (∀ d, service_error_handler (.invalidState d) = (400, d))
    ∧ (∀ d, service_error_handler (.conflictErr d) = (400, d))
    ∧ (∀ d, service_error_handler (.forbidden d) = (400, d))
    ∧ (∀ d, service_error_handler (.generic d) = (400, d))
    ∧ (∀ e, (service_error_handler e).2 = e.detail) :=
  ⟨fun _ => rfl, fun _ => rfl, fun _ => rfl, fun _ => rfl, fun _ => rfl, fun _ => rfl,
   fun e => by cases e <;> rfl⟩

/-- C7: the general exception handler of `src/main.py` answers HTTP 500 for
every unhandled exception, and with `settings.debug = false` the response
detail is the fixed string `"Internal server error"` whatever the exception
was — two runs failing differently produce identical responses. -/
theorem internal_error_uniform_response :
    (∀ msg, general_exception_handler ⟨false⟩ msg = (500, "Internal server error"))
    ∧ (∀ m1 m2, general_exception_handler ⟨false⟩ m1 = general_exception_handler ⟨false⟩ m2)
    ∧ (∀ st msg, (general_exception_handler st msg).1 = 500) :=
  ⟨fun _ => rfl, fun _ _ => rfl, fun _ _ => rfl⟩

/-! ## The moderation router (`src/routers/moderation.py`) -/

/-- HTTP methods used by the routers. -/
inductive HttpMethod
  | get
  | post
  | put
  | delete
deriving DecidableEq, Repr

/-- One route of the moderation router: its HTTP method and path as declared
by the decorator in `src/routers/moderation.py` (the router prefix
`/moderation` included). -/
structure ModRoute where
  method : HttpMethod
  path : String
deriving DecidableEq, Repr

/-- The routes of `moderation_router`, in declaration order. -/
def moderationRoutes : List ModRoute :=
  [⟨.get, "/moderation/event-history"⟩,
   ⟨.post, "/moderation/event-history"⟩,
   ⟨.get, "/moderation/application-history"⟩,
   ⟨.post, "/moderation/application-history"⟩,
   ⟨.get, "/moderation/event-history/\x7bhistory_id\x7d"⟩,
   ⟨.put, "/moderation/event-history/\x7bhistory_id\x7d"⟩,
   ⟨.delete, "/moderation/event-history/\x7bhistory_id\x7d"⟩,
   ⟨.get, "/moderation/application-history/\x7bhistory_id\x7d"⟩,
   ⟨.put, "/moderation/application-history/\x7bhistory_id\x7d"⟩,
   ⟨.delete, "/moderation/application-history/\x7bhistory_id\x7d"⟩]

/-- True for a route whose HTTP method mutates an existing resource (PUT
updates it, DELETE removes it). -/
def mutatesExisting (r : ModRoute) : Bool :=
  r.method == .put || r.method == .delete

/-- The store the moderation services operate on. -/
structure ModState where
  nextId : Nat
  eventHistory : List EventModerationHistory
  applicationHistory : List ApplicationHistory
deriving DecidableEq, Repr

/-- Creation payload of an event-moderation-history row. -/
structure EventModerationHistoryCreatePayload where
  eventId : Nat
  comment : String
  previousStatus : EventStatus
  newStatus : EventStatus
  actorId : Nat
deriving DecidableEq, Repr

/-- Creation payload of an application-history row. -/
structure ApplicationHistoryCreatePayload where
  applicationId : Nat
  comment : String
  previousStatus : AppStatus
  newStatus : AppStatus
  actorId : Nat
deriving DecidableEq, Repr

/-- The ten operations behind the moderation routes, one per route. -/
inductive ModOp
  | listEventHistory
  | createEventHistory (p : EventModerationHistoryCreatePayload)
  | getEventHistory (historyId : Nat)
  | updateEventHistory (historyId : Nat) (comment : String)
  | deleteEventHistory (historyId : Nat)
  | listApplicationHistory
  | createApplicationHistory (p : ApplicationHistoryCreatePayload)
  | getApplicationHistory (historyId : Nat)
  | updateApplicationHistory (historyId : Nat) (comment : String)
  | deleteApplicationHistory (historyId : Nat)
deriving DecidableEq, Repr

/-- Modelled from the routes of `src/routers/moderation.py` and the names of
the `services.moderation` functions they call (the services module is absent
from the visible sources): the state left behind by each moderation
operation.  Reads leave the store unchanged; create appends a fresh row; the
PUT routes update the named row's comment; the DELETE routes remove the named
row. -/
def runModOp (op : ModOp) (st : ModState) : ModState :=
  match op with
  | .listEventHistory => st
  | .createEventHistory p =>
    { st with
      nextId := st.nextId + 1
      eventHistory := st.eventHistory
        ++ [⟨st.nextId, p.eventId, p.comment, p.previousStatus, p.newStatus, p.actorId⟩] }
  | .getEventHistory _ => st
  | .updateEventHistory historyId comment =>
    { st with
      eventHistory := st.eventHistory.map fun h =>
        if h.id == historyId then { h with comment := comment } else h }
  | .deleteEventHistory historyId =>
    { st with eventHistory := st.eventHistory.filter fun h => h.id != historyId }
  | .listApplicationHistory => st
  | .createApplicationHistory p =>
    { st with
      nextId := st.nextId + 1
      applicationHistory := st.applicationHistory
        ++ [⟨st.nextId, p.applicationId, p.comment, p.previousStatus, p.newStatus, p.actorId⟩] }
  | .getApplicationHistory _ => st
  | .updateApplicationHistory historyId comment =>
    { st with
      applicationHistory := st.applicationHistory.map fun h =>
        if h.id == historyId then { h with comment := comment } else h }
  | .deleteApplicationHistory historyId =>
    { st with applicationHistory := st.applicationHistory.filter fun h => h.id != historyId }

/-- Modelled from the spec and the router declaration: the role guard
`provide_user_with_roles({UserRole.ADMIN, UserRole.CURATOR})` installed as a
router-level dependency on every moderation route admits exactly the ADMIN
and CURATOR roles. -/
def roleAllowedForModeration (r : UserRole) : Bool :=
  r == .admin || r == .curator

/-- Outcome of dispatching a moderation request. -/
inductive ModOutcome
  | handled
  | rejectedForbidden
deriving DecidableEq, Repr

/-- Dispatch of a moderation request: the router-level dependency checks the
caller's role before any route body runs; a disallowed role is rejected with
the store untouched. -/
def moderation_route_dispatch (role : UserRole) (op : ModOp) (st : ModState) :
    ModState × ModOutcome :=
  if roleAllowedForModeration role then (runModOp op st, .handled)
  else (st, .rejectedForbidden)

/-- C6: every moderation-history operation is permitted only to ADMIN or
CURATOR; a caller with any other role is rejected before the operation runs
and the store is unchanged. -/
theorem moderation_requires_privileged_role (role : UserRole) (op : ModOp) (st : ModState)
    (h1 : role ≠ .admin) (h2 : role ≠ .curator) :
    moderation_route_dispatch role op st = (st, .rejectedForbidden) := by
  have hr : roleAllowedForModeration role = false := by
    cases role
    · exact absurd rfl h1
    · exact absurd rfl h2
    · rfl
    · rfl
  unfold moderation_route_dispatch
  rw [hr]
  rfl

/-- A moderation store with one previously written row of each kind. -/
def modStateOneRow : ModState :=
  ⟨3, [⟨1, 0, "original comment", .pending, .approved, 9⟩],
   [⟨2, 0, "original note", .submitted, .approved, 9⟩]⟩

/-- Witness for C6: a STUDENT caller attempting the event-history delete
route is rejected and the store is untouched. -/
theorem moderation_requires_privileged_role_witness :
    moderation_route_dispatch .student (.deleteEventHistory 1) modStateOneRow
      = (modStateOneRow, .rejectedForbidden) :=
  moderation_requires_privileged_role .student (.deleteEventHistory 1) modStateOneRow
    (by decide) (by decide)

/-- Counterexample to C2 as stated: the moderation router does expose
operations that update and delete existing history rows — the PUT
event-history route is among the declared routes, so not every route leaves
the set of previously written rows unchanged: the update operation rewrites
the stored comment of row 1, and after it the originally written row is gone
from the store. -/
theorem audit_append_only_counterexample :
    (⟨.put, "/moderation/event-history/\x7bhistory_id\x7d"⟩ : ModRoute) ∈ moderationRoutes
    ∧ ¬ (∀ r ∈ moderationRoutes, mutatesExisting r = false)
    ∧ (⟨1, 0, "original comment", .pending, .approved, 9⟩ : EventModerationHistory)
        ∈ modStateOneRow.eventHistory
    ∧ (⟨1, 0, "original comment", .pending, .approved, 9⟩ : EventModerationHistory)
        ∉ (runModOp (.updateEventHistory 1 "tampered") modStateOneRow).eventHistory := by
  refine ⟨by decide, ?_, by decide, by decide⟩
  intro hall
  have := hall ⟨.put, "/moderation/event-history/\x7bhistory_id\x7d"⟩ (by decide)
  simp [mutatesExisting] at this

/-- C2 amended: the audit trail is not append-only at the API surface — the
moderation router exposes PUT and DELETE routes for both
`EventModerationHistory` and `ApplicationHistory` rows (ADMIN/CURATOR only),
and those operations change and remove previously written rows. -/
theorem audit_history_update_delete_exposed :
    (⟨.put, "/moderation/event-history/\x7bhistory_id\x7d"⟩ : ModRoute) ∈ moderationRoutes
    ∧ (⟨.delete, "/moderation/event-history/\x7bhistory_id\x7d"⟩ : ModRoute) ∈ moderationRoutes
    ∧ (⟨.put, "/moderation/application-history/\x7bhistory_id\x7d"⟩ : ModRoute)
        ∈ moderationRoutes
    ∧ (⟨.delete, "/moderation/application-history/\x7bhistory_id\x7d"⟩ : ModRoute)
        ∈ moderationRoutes
    ∧ (runModOp (.updateEventHistory 1 "tampered") modStateOneRow).eventHistory
        = [⟨1, 0, "tampered", .pending, .approved, 9⟩]
    ∧ (runModOp (.deleteEventHistory 1) modStateOneRow).eventHistory = []
    ∧ (runModOp (.updateApplicationHistory 2 "tampered") modStateOneRow).applicationHistory
        = [⟨2, 0, "tampered", .submitted, .approved, 9⟩]
    ∧ (runModOp (.deleteApplicationHistory 2) modStateOneRow).applicationHistory = [] := by
  refine ⟨by decide, by decide, by decide, by decide, by decide, by decide, by decide, by decide⟩

/-! ## Delete routes and their post-delete re-fetch

The delete routes of `src/routers/rooms.py`, `src/routers/users.py`,
`src/routers/notifications.py` and `src/routers/moderation.py` call the
service delete, then re-fetch the just-deleted entity by id with
`session.get` and dereference one of its attributes (`deleted_room.name`,
`deleted_user.login`, `deleted_notif.message`, `deleted_history.comment`).
The service deletes are modelled from their names and REST conventions
(`services/` is absent from the visible sources): find the row by id
(`EntityNotFoundError` when absent), remove it, return its record. -/

/-- A room row (`models.room.Room`). -/
structure Room where
  id : Nat
  name : String
  capacity : Nat
  location : String
  equipment : List (String × Bool)
  isAvailable : Bool
deriving DecidableEq, Repr

/-- A user row (`models.user.User`). -/
structure User where
  id : Nat
  login : String
  passwordHash : String
  role : UserRole
  telegramUsername : Option String
deriving DecidableEq, Repr

/-- A notification row (`models.notification.Notification`). -/
structure Notification where
  id : Nat
  userId : Nat
  message : String
  isRead : Bool
deriving DecidableEq, Repr

/-- Outcome of a route body: a successful response, a service error passed to
the exception handler, or the `AttributeError` raised by dereferencing `None`
after the re-fetch found nothing. -/
inductive RouteResult (α : Type)
  | ok (value : α)
  | svcError (e : SvcError)
  | attributeErrorOnNone
deriving DecidableEq, Repr

/-- Modelled from the spec: `delete_room` of `services.rooms`. -/
def delete_room (rooms : List Room) (roomId : Nat) : Except SvcError (List Room × Room) :=
  match rooms.find? (fun r => r.id == roomId) with
  | none => .error (.entityNotFound "room not found")
  | some r => .ok (rooms.filter (fun x => x.id != roomId), r)

/-- Embedding of `delete_room_route` from `src/routers/rooms.py`: service
delete, then `session.get(Room, room_id)` on the post-delete store, then the
dereference `deleted_room.name`. -/
def delete_room_route (rooms : List Room) (roomId : Nat) : List Room × RouteResult Room :=
  match delete_room rooms roomId with
  | .error e => (rooms, .svcError e)
  | .ok (rooms', result) =>
    match rooms'.find? (fun r => r.id == roomId) with
    | none => (rooms', .attributeErrorOnNone)
    | some _ => (rooms', .ok result)

/-- Modelled from the spec: `delete_user` of `services.users`. -/
def delete_user (users : List User) (userId : Nat) : Except SvcError (List User × User) :=
  match users.find? (fun u => u.id == userId) with
  | none => .error (.entityNotFound "user not found")
  | some u => .ok (users.filter (fun x => x.id != userId), u)

/-- Embedding of `delete_user_route` from `src/routers/users.py`, ending in
the dereference `deleted_user.login`. -/
def delete_user_route (users : List User) (userId : Nat) : List User × RouteResult User :=
  match delete_user users userId with
  | .error e => (users, .svcError e)
  | .ok (users', result) =>
    match users'.find? (fun u => u.id == userId) with
    | none => (users', .attributeErrorOnNone)
    | some _ => (users', .ok result)

/-- Modelled from the spec: `delete_notification` of `services.notifications`. -/
def delete_notification (ns : List Notification) (notificationId : Nat) :
    Except SvcError (List Notification × Notification) :=
  match ns.find? (fun n => n.id == notificationId) with
  | none => .error (.entityNotFound "notification not found")
  | some n => .ok (ns.filter (fun x => x.id != notificationId), n)

/-- Embedding of `delete_notification_route` from
`src/routers/notifications.py`, ending in the dereference
`deleted_notif.message`. -/
def delete_notification_route (ns : List Notification) (notificationId : Nat) :
    List Notification × RouteResult Notification :=
  match delete_notification ns notificationId with
  | .error e => (ns, .svcError e)
  | .ok (ns', result) =>
    match ns'.find? (fun n => n.id == notificationId) with
    | none => (ns', .attributeErrorOnNone)
    | some _ => (ns', .ok result)

/-- Modelled from the spec: `delete_event_moderation_history` of
`services.moderation`. -/
def delete_event_moderation_history (hist : List EventModerationHistory) (historyId : Nat) :
    Except SvcError (List EventModerationHistory × EventModerationHistory) :=
  match hist.find? (fun h => h.id == historyId) with
  | none => .error (.entityNotFound "history row not found")
  | some h => .ok (hist.filter (fun x => x.id != historyId), h)

/-- Embedding of `delete_event_moderation_history_route` from
`src/routers/moderation.py`, ending in the dereference
`deleted_history.comment`. -/
def delete_event_moderation_history_route (hist : List EventModerationHistory)
    (historyId : Nat) : List EventModerationHistory × RouteResult EventModerationHistory :=
  match delete_event_moderation_history hist historyId with
  | .error e => (hist, .svcError e)
  | .ok (hist', result) =>
    match hist'.find? (fun h => h.id == historyId) with
    | none => (hist', .attributeErrorOnNone)
    | some _ => (hist', .ok result)

/-- After filtering out every row with the given id, a lookup by that id
finds nothing. -/
lemma find?_filter_ne_none {α : Type} (idf : α → Nat) (l : List α) (n : Nat) :
    (l.filter (fun x => idf x != n)).find? (fun x => idf x == n) = none := by
  rw [List.find?_eq_none]
  intro x hx
  have hne := (List.mem_filter.mp hx).2
  simpa using hne

lemma delete_room_route_attr {rooms : List Room} {roomId : Nat} {rest : List Room} {r : Room}
    (hok : delete_room rooms roomId = .ok (rest, r)) :
    (delete_room_route rooms roomId).2 = .attributeErrorOnNone := by
  have hok' := hok
  unfold delete_room at hok'
  split at hok'
  · cases hok'
  · simp only [Except.ok.injEq, Prod.mk.injEq] at hok'
    obtain ⟨hrest, -⟩ := hok'
    subst hrest
    unfold delete_room_route
    rw [hok]
    simp [find?_filter_ne_none Room.id]

lemma delete_user_route_attr {users : List User} {userId : Nat} {rest : List User} {u : User}
    (hok : delete_user users userId = .ok (rest, u)) :
    (delete_user_route users userId).2 = .attributeErrorOnNone := by
  have hok' := hok
  unfold delete_user at hok'
  split at hok'
  · cases hok'
  · simp only [Except.ok.injEq, Prod.mk.injEq] at hok'
    obtain ⟨hrest, -⟩ := hok'
    subst hrest
    unfold delete_user_route
    rw [hok]
    simp [find?_filter_ne_none User.id]

lemma delete_notification_route_attr {ns : List Notification} {notificationId : Nat}
    {rest : List Notification} {n : Notification}
    (hok : delete_notification ns notificationId = .ok (rest, n)) :
    (delete_notification_route ns notificationId).2 = .attributeErrorOnNone := by
  have hok' := hok
  unfold delete_notification at hok'
  split at hok'
  · cases hok'
  · simp only [Except.ok.injEq, Prod.mk.injEq] at hok'
    obtain ⟨hrest, -⟩ := hok'
    subst hrest
    unfold delete_notification_route
    rw [hok]
    simp [find?_filter_ne_none Notification.id]

lemma delete_history_route_attr {hist : List EventModerationHistory} {historyId : Nat}
    {rest : List EventModerationHistory} {h : EventModerationHistory}
    (hok : delete_event_moderation_history hist historyId = .ok (rest, h)) :
    (delete_event_moderation_history_route hist historyId).2 = .attributeErrorOnNone := by
  have hok' := hok
  unfold delete_event_moderation_history at hok'
  split at hok'
  · cases hok'
  · simp only [Except.ok.injEq, Prod.mk.injEq] at hok'
    obtain ⟨hrest, -⟩ := hok'
    subst hrest
    unfold delete_event_moderation_history_route
    rw [hok]
    simp [find?_filter_ne_none EventModerationHistory.id]

/-- C9 is false of the code: whenever the service delete succeeds, the
re-fetch by the deleted id finds nothing and the subsequent attribute
dereference fails — for all four delete routes, every successful delete ends
in the `AttributeError` outcome, never in a successful dereference. -/
theorem delete_routes_dereference_deleted_row :
    (∀ (rooms : List Room) (roomId : Nat) rest r,
      delete_room rooms roomId = .ok (rest, r) →
      (delete_room_route rooms roomId).2 = .attributeErrorOnNone)
    ∧ (∀ (users : List User) (userId : Nat) rest u,
        delete_user users userId = .ok (rest, u) →
        (delete_user_route users userId).2 = .attributeErrorOnNone)
    ∧ (∀ (ns : List Notification) (notificationId : Nat) rest n,
        delete_notification ns notificationId = .ok (rest, n) →
        (delete_notification_route ns notificationId).2 = .attributeErrorOnNone)
    ∧ (∀ (hist : List EventModerationHistory) (historyId : Nat) rest h,
        delete_event_moderation_history hist historyId = .ok (rest, h) →
        (delete_event_moderation_history_route hist historyId).2 = .attributeErrorOnNone) :=
  ⟨fun _ _ _ _ hok => delete_room_route_attr hok,
   fun _ _ _ _ hok => delete_user_route_attr hok,
   fun _ _ _ _ hok => delete_notification_route_attr hok,
   fun _ _ _ _ hok => delete_history_route_attr hok⟩

/-- A store with a single room, used by the C9 witness. -/
def witnessRoomStore : List Room :=
  [⟨1, "B504", 120, "building B", [("projector", true)], true⟩]

/-- Witness for C9: deleting the one existing room succeeds at the service
layer, and the route's re-fetch dereference then fails. -/
theorem delete_routes_dereference_deleted_row_witness :
    (delete_room_route witnessRoomStore 1).2 = .attributeErrorOnNone :=
  delete_routes_dereference_deleted_row.1 witnessRoomStore 1 []
    ⟨1, "B504", 120, "building B", [("projector", true)], true⟩ (by rfl)

/-! ## The seed script (`src/scripts/seed_data.py`)

`seed_rooms` and `seed_curators` share one loop shape: query the store by the
payload's unique key (room name / user login), keep the existing row when
found, otherwise add a fresh row, and record `(key, result)` in the returned
mapping.  `seedByKey` embeds that loop once; the two source functions are its
instances.  A store is a list of rows plus the fresh-id counter standing for
UUID generation. -/

/-- A persistent table of rows with a fresh-id counter. -/
structure KStore (R : Type) where
  nextId : Nat
  rows : List R
deriving Repr

/-- Payload of `seed_rooms` (`RoomSeedPayload` in the source). -/
structure RoomSeedPayload where
  name : String
  capacity : Nat
  location : String
  equipment : List (String × Bool)
  isAvailable : Bool
deriving DecidableEq, Repr

/-- Result entry of `seed_rooms` (`RoomSeedResult`). -/
structure RoomSeedResult where
  id : Nat
  name : String
deriving DecidableEq, Repr

/-- Payload of `seed_curators` (`CuratorSeedPayload`). -/
structure CuratorSeedPayload where
  login : String
  rawPassword : String
  telegramUsername : Option String
deriving DecidableEq, Repr

/-- Result entry of `seed_curators` (`CuratorSeedResult`). -/
structure CuratorSeedResult where
  id : Nat
  login : String
deriving DecidableEq, Repr

/-- Payload of `seed_events` (`EventSeedPayload`). -/
structure EventSeedPayload where
  title : String
  description : String
  eventDate : Nat
  startTime : Nat
  endTime : Nat
  maxParticipants : Option Nat
  creatorLogin : String
  curatorLogin : String
  roomName : String
deriving DecidableEq, Repr

/-- Modelled from the spec: `hash_password` of `core.security` (absent from
the visible sources), kept abstract as an injective tagging of the raw
password. -/
def hash_password (raw : String) : String :=
  "bcrypt$" ++ raw

/-- The shared loop of `seed_rooms` and `seed_curators`: for each payload,
look the store up by the payload's key; when a row exists, record it and move
on, otherwise insert a fresh row (flushed, so later payloads see it) and
record that.  The accumulated `(key, result)` list models the returned
dict. -/
def seedByKey {P R Res : Type} (keyR : R → String) (keyP : P → String)
    (mk : Nat → P → R) (resOf : R → Res) :
    KStore R → List P → List (String × Res) × KStore R
  | store, [] => ([], store)
  | store, p :: rest =>
    match store.rows.find? (fun r => keyR r == keyP p) with
    | some existing =>
      let pr := seedByKey keyR keyP mk resOf store rest
      ((keyP p, resOf existing) :: pr.1, pr.2)
    | none =>
      let row := mk store.nextId p
      let pr := seedByKey keyR keyP mk resOf ⟨store.nextId + 1, store.rows ++ [row]⟩ rest
      ((keyP p, resOf row) :: pr.1, pr.2)

/-- Embedding of `seed_rooms` from `src/scripts/seed_data.py`: skip any
payload whose room name already exists, otherwise insert the room. -/
def seed_rooms : KStore Room → List RoomSeedPayload →
    List (String × RoomSeedResult) × KStore Room :=
  seedByKey Room.name RoomSeedPayload.name
    (fun n p => ⟨n, p.name, p.capacity, p.location, p.equipment, p.isAvailable⟩)
    (fun r => ⟨r.id, r.name⟩)

/-- Embedding of `seed_curators` from `src/scripts/seed_data.py`: skip any
payload whose login already exists, otherwise insert the curator user. -/
def seed_curators : KStore User → List CuratorSeedPayload →
    List (String × CuratorSeedResult) × KStore User :=
  seedByKey User.login CuratorSeedPayload.login
    (fun n p => ⟨n, p.login, hash_password p.rawPassword, .curator, p.telegramUsername⟩)
    (fun u => ⟨u.id, u.login⟩)

lemma seedByKey_nil {P R Res : Type} (keyR : R → String) (keyP : P → String)
    (mk : Nat → P → R) (resOf : R → Res) (store : KStore R) :
    seedByKey keyR keyP mk resOf store ([] : List P) = ([], store) := rfl

lemma seedByKey_cons_found {P R Res : Type} (keyR : R → String) (keyP : P → String)
    (mk : Nat → P → R) (resOf : R → Res) (store : KStore R) (p : P) (rest : List P)
    {existing : R}
    (hfind : store.rows.find? (fun r => keyR r == keyP p) = some existing) :
    seedByKey keyR keyP mk resOf store (p :: rest)
      = ((keyP p, resOf existing) :: (seedByKey keyR keyP mk resOf store rest).1,
         (seedByKey keyR keyP mk resOf store rest).2) := by
  simp only [seedByKey]
  rw [hfind]

lemma seedByKey_cons_new {P R Res : Type} (keyR : R → String) (keyP : P → String)
    (mk : Nat → P → R) (resOf : R → Res) (store : KStore R) (p : P) (rest : List P)
    (hfind : store.rows.find? (fun r => keyR r == keyP p) = none) :
    seedByKey keyR keyP mk resOf store (p :: rest)
      = ((keyP p, resOf (mk store.nextId p)) ::
          (seedByKey keyR keyP mk resOf
            ⟨store.nextId + 1, store.rows ++ [mk store.nextId p]⟩ rest).1,
         (seedByKey keyR keyP mk resOf
            ⟨store.nextId + 1, store.rows ++ [mk store.nextId p]⟩ rest).2) := by
  simp only [seedByKey]
  rw [hfind]

lemma seedByKey_mem_rows {P R Res : Type} (keyR : R → String) (keyP : P → String)
    (mk : Nat → P → R) (resOf : R → Res) :
    ∀ (ps : List P) (store : KStore R) {r : R}, r ∈ store.rows →
      r ∈ (seedByKey keyR keyP mk resOf store ps).2.rows := by
  intro ps
  induction ps with
  | nil => intro store r hr; exact hr
  | cons p rest ih =>
    intro store r hr
    cases hfind : store.rows.find? (fun x => keyR x == keyP p) with
    | some existing =>
      rw [seedByKey_cons_found keyR keyP mk resOf store p rest hfind]
      exact ih store hr
    | none =>
      rw [seedByKey_cons_new keyR keyP mk resOf store p rest hfind]
      exact ih _ (List.mem_append_left _ hr)

lemma seedByKey_key_present {P R Res : Type} (keyR : R → String) (keyP : P → String)
    (mk : Nat → P → R) (resOf : R → Res)
    (hkey : ∀ n q, keyR (mk n q) = keyP q) :
    ∀ (ps : List P) (store : KStore R), ∀ p ∈ ps,
      ∃ r ∈ (seedByKey keyR keyP mk resOf store ps).2.rows, keyR r = keyP p := by
  intro ps
  induction ps with
  | nil => intro store p hp; cases hp
  | cons q rest ih =>
    intro store p hp
    cases hfind : store.rows.find? (fun x => keyR x == keyP q) with
    | some existing =>
      rw [seedByKey_cons_found keyR keyP mk resOf store q rest hfind]
      rcases List.mem_cons.mp hp with rfl | hmem
      · refine ⟨existing, ?_, ?_⟩
        · exact seedByKey_mem_rows keyR keyP mk resOf rest store
            (List.mem_of_find?_eq_some hfind)
        · have hp2 := List.find?_some hfind
          simpa using hp2
      · exact ih store p hmem
    | none =>
      rw [seedByKey_cons_new keyR keyP mk resOf store q rest hfind]
      rcases List.mem_cons.mp hp with rfl | hmem
      · refine ⟨mk store.nextId p, ?_, hkey _ _⟩
        exact seedByKey_mem_rows keyR keyP mk resOf rest _
          (List.mem_append_right _ (by simp))
      · exact ih _ p hmem

lemma seedByKey_noop {P R Res : Type} (keyR : R → String) (keyP : P → String)
    (mk : Nat → P → R) (resOf : R → Res) :
    ∀ (ps : List P) (store : KStore R),
      (∀ p ∈ ps, ∃ r ∈ store.rows, keyR r = keyP p) →
      (seedByKey keyR keyP mk resOf store ps).2 = store := by
  intro ps
  induction ps with
  | nil => intro store _; rfl
  | cons p rest ih =>
    intro store h
    rcases h p (by simp) with ⟨r, hr, hkeyEq⟩
    have hsome : (store.rows.find? (fun x => keyR x == keyP p)).isSome := by
      rw [List.find?_isSome]
      exact ⟨r, hr, by simp [hkeyEq]⟩
    rcases Option.isSome_iff_exists.mp hsome with ⟨existing, hfind⟩
    rw [seedByKey_cons_found keyR keyP mk resOf store p rest hfind]
    exact ih store fun q hq => h q (by simp [hq])

lemma seedByKey_idempotent {P R Res : Type} (keyR : R → String) (keyP : P → String)
    (mk : Nat → P → R) (resOf : R → Res)
    (hkey : ∀ n q, keyR (mk n q) = keyP q) (store : KStore R) (ps : List P) :
    (seedByKey keyR keyP mk resOf (seedByKey keyR keyP mk resOf store ps).2 ps).2
      = (seedByKey keyR keyP mk resOf store ps).2 :=
  seedByKey_noop keyR keyP mk resOf ps _
    (fun p hp => seedByKey_key_present keyR keyP mk resOf hkey ps store p hp)

lemma seedByKey_nodup_keys {P R Res : Type} (keyR : R → String) (keyP : P → String)
    (mk : Nat → P → R) (resOf : R → Res)
    (hkey : ∀ n q, keyR (mk n q) = keyP q) :
    ∀ (ps : List P) (store : KStore R),
      (store.rows.map keyR).Nodup →
      ((seedByKey keyR keyP mk resOf store ps).2.rows.map keyR).Nodup := by
  intro ps
  induction ps with
  | nil => intro store hnd; exact hnd
  | cons p rest ih =>
    intro store hnd
    cases hfind : store.rows.find? (fun x => keyR x == keyP p) with
    | some existing =>
      rw [seedByKey_cons_found keyR keyP mk resOf store p rest hfind]
      exact ih store hnd
    | none =>
      rw [seedByKey_cons_new keyR keyP mk resOf store p rest hfind]
      refine ih _ ?_
      show ((store.rows ++ [mk store.nextId p]).map keyR).Nodup
      rw [List.map_append, List.nodup_append]
      refine ⟨hnd, by simp, ?_⟩
      intro x hx
      rcases List.mem_map.mp hx with ⟨y, hy, rfl⟩
      have hne := List.find?_eq_none.mp hfind y hy
      simp only [List.map_cons, List.map_nil, List.mem_singleton, hkey]
      intro hEq
      exact hne (by simp [hEq])

/-- Dictionary lookup on the `(key, value)` mappings returned by the earlier
seed stages (`curators[login]`, `rooms[name]` in the source). -/
def lookupKey {β : Type} (m : List (String × β)) (k : String) : Option β :=
  (m.find? (fun kv => kv.1 == k)).map (fun kv => kv.2)

/-- True when some row carries the given title (the existing-title query of
`seed_events`; pending flushed rows are visible to it). -/
def hasTitle (rows : List Event) (t : String) : Bool :=
  rows.any (fun e => e.title == t)

/-- The event row inserted by `seed_events` for a payload: APPROVED, internal
room, `registered_count = 0`, `need_approve_candidates = False`. -/
def mkSeedEvent (n : Nat) (p : EventSeedPayload) (creatorId curatorId roomId : Nat) : Event :=
  ⟨n, p.title, p.description, p.eventDate, p.startTime, p.endTime, p.maxParticipants, 0,
   .approved, creatorId, curatorId, some roomId, none, false⟩

/-- Embedding of the loop of `seed_events` from `src/scripts/seed_data.py`.
`committed` holds the rows already durable before the call, `pending` the
rows added (and flushed) by this call but not yet committed.  A payload whose
title already exists — in the committed rows or among the pending ones — is
skipped with `continue` BEFORE its references are validated; a missing
creator, curator or room reference raises `ValueError` (the `.error` result),
in that order, so the final commit (`.ok`, which makes `pending` durable) is
never reached. -/
def seed_events_loop (committed pending : List Event) (payloads : List EventSeedPayload)
    (nextId : Nat) (curators : List (String × CuratorSeedResult))
    (rooms : List (String × RoomSeedResult)) : Except String (Nat × List Event) :=
  match payloads with
  | [] => .ok (nextId, committed ++ pending)
  | p :: rest =>
    if hasTitle (committed ++ pending) p.title then
      seed_events_loop committed pending rest nextId curators rooms
    else
      match lookupKey curators p.creatorLogin with
      | none => .error ("Creator " ++ p.creatorLogin ++ " missing for event " ++ p.title)
      | some creator =>
        match lookupKey curators p.curatorLogin with
        | none => .error ("Curator " ++ p.curatorLogin ++ " missing for event " ++ p.title)
        | some curator =>
          match lookupKey rooms p.roomName with
          | none => .error ("Room " ++ p.roomName ++ " missing for event " ++ p.title)
          | some room =>
            seed_events_loop committed
              (pending ++ [mkSeedEvent nextId p creator.id curator.id room.id])
              rest (nextId + 1) curators rooms

/-- Embedding of `seed_events` from `src/scripts/seed_data.py`: run the loop
over the committed store with no pending rows; `.ok` is the final commit,
`.error` the raised `ValueError` with its message. -/
def seed_events (store : KStore Event) (payloads : List EventSeedPayload)
    (curators : List (String × CuratorSeedResult))
    (rooms : List (String × RoomSeedResult)) : Except String (KStore Event) :=
  match seed_events_loop store.rows [] payloads store.nextId curators rooms with
  | .ok (n, rows) => .ok ⟨n, rows⟩
  | .error m => .error m

/-- The durable store after a `seed_events` call, paired with the raised
error message if any: on `ValueError` the commit was never reached, so the
store is the unchanged input. -/
def run_seed_events (store : KStore Event) (payloads : List EventSeedPayload)
    (curators : List (String × CuratorSeedResult))
    (rooms : List (String × RoomSeedResult)) : KStore Event × Option String :=
  match seed_events store payloads curators rooms with
  | .ok st' => (st', none)
  | .error m => (store, some m)

/-- The `ValueError` message `seed_events` raises for a payload with a
missing reference, if any: the creator check comes first, then the curator,
then the room. -/
def refErrorMsg (p : EventSeedPayload) (curators : List (String × CuratorSeedResult))
    (rooms : List (String × RoomSeedResult)) : Option String :=
  match lookupKey curators p.creatorLogin with
  | none => some ("Creator " ++ p.creatorLogin ++ " missing for event " ++ p.title)
  | some _ =>
    match lookupKey curators p.curatorLogin with
    | none => some ("Curator " ++ p.curatorLogin ++ " missing for event " ++ p.title)
    | some _ =>
      match lookupKey rooms p.roomName with
      | none => some ("Room " ++ p.roomName ++ " missing for event " ++ p.title)
      | some _ => none

lemma hasTitle_append (l₁ l₂ : List Event) (t : String) :
    hasTitle (l₁ ++ l₂) t = (hasTitle l₁ t || hasTitle l₂ t) := by
  unfold hasTitle
  exact List.any_append

lemma seed_events_loop_title_mono
    (curators : List (String × CuratorSeedResult)) (rooms : List (String × RoomSeedResult))
    (t : String) :
    ∀ (payloads : List EventSeedPayload) (committed pending : List Event) (nextId n : Nat)
      (rows : List Event),
      seed_events_loop committed pending payloads nextId curators rooms = .ok (n, rows) →
      hasTitle (committed ++ pending) t = true → hasTitle rows t = true := by
  intro payloads
  induction payloads with
  | nil =>
    intro committed pending nextId n rows hok ht
    unfold seed_events_loop at hok
    simp only [Except.ok.injEq, Prod.mk.injEq] at hok
    obtain ⟨-, hrows⟩ := hok
    rw [← hrows]
    exact ht
  | cons p rest ih =>
    intro committed pending nextId n rows hok ht
    unfold seed_events_loop at hok
    by_cases hskip : hasTitle (committed ++ pending) p.title = true
    · rw [if_pos hskip] at hok
      exact ih committed pending nextId n rows hok ht
    · rw [if_neg hskip] at hok
      cases h1 : lookupKey curators p.creatorLogin with
      | none => rw [h1] at hok; cases hok
      | some creator =>
        rw [h1] at hok
        cases h2 : lookupKey curators p.curatorLogin with
        | none => rw [h2] at hok; cases hok
        | some curator =>
          rw [h2] at hok
          cases h3 : lookupKey rooms p.roomName with
          | none => rw [h3] at hok; cases hok
          | some room =>
            rw [h3] at hok
            refine ih committed _ (nextId + 1) n rows hok ?_
            rw [← List.append_assoc, hasTitle_append, ht]
            rfl

lemma seed_events_loop_payload_titles
    (curators : List (String × CuratorSeedResult)) (rooms : List (String × RoomSeedResult)) :
    ∀ (payloads : List EventSeedPayload) (committed pending : List Event) (nextId n : Nat)
      (rows : List Event),
      seed_events_loop committed pending payloads nextId curators rooms = .ok (n, rows) →
      ∀ p ∈ payloads, hasTitle rows p.title = true := by
  intro payloads
  induction payloads with
  | nil => intro _ _ _ _ _ _ p hp; cases hp
  | cons q rest ih =>
    intro committed pending nextId n rows hok p hp
    have hok' := hok
    unfold seed_events_loop at hok'
    by_cases hskip : hasTitle (committed ++ pending) q.title = true
    · rw [if_pos hskip] at hok'
      rcases List.mem_cons.mp hp with rfl | hmem
      · exact seed_events_loop_title_mono curators rooms p.title rest committed pending
          nextId n rows hok' hskip
      · exact ih committed pending nextId n rows hok' p hmem
    · rw [if_neg hskip] at hok'
      cases h1 : lookupKey curators q.creatorLogin with
      | none => rw [h1] at hok'; cases hok'
      | some creator =>
        rw [h1] at hok'
        cases h2 : lookupKey curators q.curatorLogin with
        | none => rw [h2] at hok'; cases hok'
        | some curator =>
          rw [h2] at hok'
          cases h3 : lookupKey rooms q.roomName with
          | none => rw [h3] at hok'; cases hok'
          | some room =>
            rw [h3] at hok'
            rcases List.mem_cons.mp hp with rfl | hmem
            · refine seed_events_loop_title_mono curators rooms p.title rest committed _
                (nextId + 1) n rows hok' ?_
              rw [hasTitle_append, hasTitle_append]
              simp [hasTitle, mkSeedEvent]
            · exact ih committed _ (nextId + 1) n rows hok' p hmem

lemma seed_events_loop_noop
    (curators : List (String × CuratorSeedResult)) (rooms : List (String × RoomSeedResult)) :
    ∀ (payloads : List EventSeedPayload) (committed pending : List Event) (nextId : Nat),
      (∀ p ∈ payloads, hasTitle committed p.title = true) →
      seed_events_loop committed pending payloads nextId curators rooms
        = .ok (nextId, committed ++ pending) := by
  intro payloads
  induction payloads with
  | nil => intro committed pending nextId _; rfl
  | cons p rest ih =>
    intro committed pending nextId h
    unfold seed_events_loop
    have hskip : hasTitle (committed ++ pending) p.title = true := by
      rw [hasTitle_append, h p (by simp)]
      rfl
    rw [if_pos hskip]
    exact ih committed pending nextId fun q hq => h q (by simp [hq])

lemma seed_events_idempotent {store st' : KStore Event}
    {payloads : List EventSeedPayload} {curators : List (String × CuratorSeedResult)}
    {rooms : List (String × RoomSeedResult)}
    (hok : seed_events store payloads curators rooms = .ok st') :
    seed_events st' payloads curators rooms = .ok st' := by
  have hok' := hok
  unfold seed_events at hok'
  cases hloop : seed_events_loop store.rows [] payloads store.nextId curators rooms with
  | error m => rw [hloop] at hok'; cases hok'
  | ok r =>
    rcases r with ⟨n, rows⟩
    rw [hloop] at hok'
    simp only [Except.ok.injEq] at hok'
    have htitles : ∀ p ∈ payloads, hasTitle rows p.title = true :=
      seed_events_loop_payload_titles curators rooms payloads store.rows [] store.nextId
        n rows hloop
    unfold seed_events
    rw [← hok']
    rw [seed_events_loop_noop curators rooms payloads rows [] n htitles]
    simp

/-- C8: seeding is idempotent and preserves uniqueness — `seed_rooms` skips a
payload whose room name already exists, returning the existing row and
leaving the store untouched; re-running `seed_rooms`, `seed_curators` or a
successful `seed_events` with the same payloads creates no new rows; and room
names stay pairwise distinct. -/
theorem seeding_idempotent_and_unique :
    (∀ (st : KStore Room) (ps : List RoomSeedPayload),
      (seed_rooms (seed_rooms st ps).2 ps).2 = (seed_rooms st ps).2)
    ∧ (∀ (st : KStore Room) (p : RoomSeedPayload) (r : Room),
        st.rows.find? (fun x => x.name == p.name) = some r →
        seed_rooms st [p] = ([(p.name, ⟨r.id, r.name⟩)], st))
    ∧ (∀ (st : KStore Room) (ps : List RoomSeedPayload),
        (st.rows.map Room.name).Nodup →
        ((seed_rooms st ps).2.rows.map Room.name).Nodup)
    ∧ (∀ (st : KStore User) (ps : List CuratorSeedPayload),
        (seed_curators (seed_curators st ps).2 ps).2 = (seed_curators st ps).2)
    ∧ (∀ (st st' : KStore Event) (ps : List EventSeedPayload)
        (cur : List (String × CuratorSeedResult)) (rms : List (String × RoomSeedResult)),
        seed_events st ps cur rms = .ok st' → seed_events st' ps cur rms = .ok st') := by
  refine ⟨?_, ?_, ?_, ?_, ?_⟩
  · intro st ps
    exact seedByKey_idempotent Room.name RoomSeedPayload.name _ _ (fun _ _ => rfl) st ps
  · intro st p r hfind
    show seedByKey Room.name RoomSeedPayload.name _ _ st [p] = _
    rw [seedByKey_cons_found Room.name RoomSeedPayload.name _ _ st p [] hfind,
      seedByKey_nil]
  · intro st ps hnd
    exact seedByKey_nodup_keys Room.name RoomSeedPayload.name _ _ (fun _ _ => rfl) ps st hnd
  · intro st ps
    exact seedByKey_idempotent User.login CuratorSeedPayload.login _ _ (fun _ _ => rfl) st ps
  · intro st st' ps cur rms hok
    exact seed_events_idempotent hok

/-- Room store for the C8 witness: room B504 already exists. -/
def witnessSeedRoomStore : KStore Room :=
  ⟨2, [⟨1, "B504", 120, "building B", [("projector", true)], true⟩]⟩

/-- Payload naming the already-present room B504. -/
def witnessRoomPayload : RoomSeedPayload :=
  ⟨"B504", 120, "building B", [("projector", true)], true⟩

/-- Event store for the C8 witness: one committed event titled T. -/
def witnessEventSeedStore : KStore Event :=
  ⟨1, [⟨0, "T", "seeded", 5, 0, 60, none, 0, .approved, 1, 1, some 1, none, false⟩]⟩

/-- Payload for a fresh event titled U with resolvable references. -/
def witnessEventPayload : EventSeedPayload :=
  ⟨"U", "seeded", 6, 0, 60, none, "c", "c", "B504"⟩

/-- Curator mapping used by the C8 witness. -/
def witnessCuratorMap : List (String × CuratorSeedResult) := [("c", ⟨1, "c"⟩)]

/-- Room mapping used by the C8 witness. -/
def witnessRoomMap : List (String × RoomSeedResult) := [("B504", ⟨1, "B504"⟩)]

/-- The store committed by the first `seed_events` run of the C8 witness. -/
def witnessEventSeedStoreAfter : KStore Event :=
  ⟨2, [⟨0, "T", "seeded", 5, 0, 60, none, 0, .approved, 1, 1, some 1, none, false⟩,
       mkSeedEvent 1 witnessEventPayload 1 1 1]⟩

/-- Witness for C8: re-seeding the existing room B504 returns the stored row
and changes nothing; the seeded room names are distinct; and a second
`seed_events` run over what the first run committed is a no-op success. -/
theorem seeding_idempotent_and_unique_witness :
    seed_rooms witnessSeedRoomStore [witnessRoomPayload]
      = ([("B504", ⟨1, "B504"⟩)], witnessSeedRoomStore)
    ∧ ((seed_rooms witnessSeedRoomStore [witnessRoomPayload]).2.rows.map Room.name).Nodup
    ∧ seed_events witnessEventSeedStoreAfter [witnessEventPayload] witnessCuratorMap
        witnessRoomMap = .ok witnessEventSeedStoreAfter :=
  ⟨seeding_idempotent_and_unique.2.1 witnessSeedRoomStore witnessRoomPayload
     ⟨1, "B504", 120, "building B", [("projector", true)], true⟩ (by rfl),
   seeding_idempotent_and_unique.2.2.1 witnessSeedRoomStore [witnessRoomPayload] (by decide),
   seeding_idempotent_and_unique.2.2.2.2 witnessEventSeedStore witnessEventSeedStoreAfter
     [witnessEventPayload] witnessCuratorMap witnessRoomMap (by rfl)⟩

lemma seed_events_loop_error
    (curators : List (String × CuratorSeedResult)) (rooms : List (String × RoomSeedResult))
    (p : EventSeedPayload) (l₂ : List EventSeedPayload) :
    ∀ (l₁ : List EventSeedPayload) (committed pending : List Event) (nextId : Nat),
      (refErrorMsg p curators rooms).isSome = true →
      hasTitle committed p.title = false →
      hasTitle pending p.title = false →
      (∀ q ∈ l₁, q.title ≠ p.title) →
      ∃ m, seed_events_loop committed pending (l₁ ++ p :: l₂) nextId curators rooms
            = .error m
        ∧ ∃ q ∈ l₁ ++ p :: l₂, refErrorMsg q curators rooms = some m := by
  intro l₁
  induction l₁ with
  | nil =>
    intro committed pending nextId href hc hp _
    have hskip : hasTitle (committed ++ pending) p.title = false := by
      rw [hasTitle_append, hc, hp]
      rfl
    rw [List.nil_append]
    unfold seed_events_loop
    rw [if_neg (by simp [hskip])]
    unfold refErrorMsg at href
    cases h1 : lookupKey curators p.creatorLogin with
    | none =>
      refine ⟨_, rfl, p, by simp, ?_⟩
      unfold refErrorMsg
      rw [h1]
    | some creator =>
      cases h2 : lookupKey curators p.curatorLogin with
      | none =>
        refine ⟨_, rfl, p, by simp, ?_⟩
        unfold refErrorMsg
        rw [h1, h2]
      | some curator =>
        cases h3 : lookupKey rooms p.roomName with
        | none =>
          refine ⟨_, rfl, p, by simp, ?_⟩
          unfold refErrorMsg
          rw [h1, h2, h3]
        | some room =>
          rw [h1, h2, h3] at href
          simp at href
  | cons q l₁ ih =>
    intro committed pending nextId href hc hp hfresh
    have hqp : q.title ≠ p.title := hfresh q (by simp)
    rw [List.cons_append]
    unfold seed_events_loop
    by_cases hskip : hasTitle (committed ++ pending) q.title = true
    · rw [if_pos hskip]
      obtain ⟨m, hm, q', hq', hmsg⟩ :=
        ih committed pending nextId href hc hp (fun x hx => hfresh x (by simp [hx]))
      exact ⟨m, hm, q', by simp [hq'], hmsg⟩
    · rw [if_neg hskip]
      cases h1 : lookupKey curators q.creatorLogin with
      | none =>
        refine ⟨_, rfl, q, by simp, ?_⟩
        unfold refErrorMsg
        rw [h1]
      | some creator =>
        cases h2 : lookupKey curators q.curatorLogin with
        | none =>
          refine ⟨_, rfl, q, by simp, ?_⟩
          unfold refErrorMsg
          rw [h1, h2]
        | some curator =>
          cases h3 : lookupKey rooms q.roomName with
          | none =>
            refine ⟨_, rfl, q, by simp, ?_⟩
            unfold refErrorMsg
            rw [h1, h2, h3]
          | some room =>
            have hp' : hasTitle (pending ++ [mkSeedEvent nextId q creator.id curator.id
                room.id]) p.title = false := by
              rw [hasTitle_append, hp]
              simp [hasTitle, mkSeedEvent]
              exact fun hEq => hqp hEq
            obtain ⟨m, hm, q', hq', hmsg⟩ :=
              ih committed _ (nextId + 1) href hc hp'
                (fun x hx => hfresh x (by simp [hx]))
            exact ⟨m, hm, q', by simp [hq'], hmsg⟩

/-- C10 amended: `seed_events` validates references only for payloads that
are not skipped.  If some payload in the list has a missing creator, curator
or room reference AND its title is neither already in the store nor shared
with an earlier payload of the same call, the call raises `ValueError` — the
message identifies a missing reference and its event's title — and the
persistent store is unchanged because the final commit is never reached.  (A
payload whose title already exists is skipped before its references are
checked; see the counterexample.) -/
theorem seed_events_missing_reference_aborts
    (store : KStore Event) (l₁ l₂ : List EventSeedPayload) (p : EventSeedPayload)
    (curators : List (String × CuratorSeedResult)) (rooms : List (String × RoomSeedResult))
    (href : (refErrorMsg p curators rooms).isSome = true)
    (htitle : hasTitle store.rows p.title = false)
    (hfresh : ∀ q ∈ l₁, q.title ≠ p.title) :
    ∃ m, run_seed_events store (l₁ ++ p :: l₂) curators rooms = (store, some m)
      ∧ ∃ q ∈ l₁ ++ p :: l₂, refErrorMsg q curators rooms = some m := by
  obtain ⟨m, hloop, hq⟩ := seed_events_loop_error curators rooms p l₂ l₁ store.rows []
    store.nextId href htitle rfl hfresh
  refine ⟨m, ?_, hq⟩
  unfold run_seed_events seed_events
  rw [hloop]

/-- Event store whose single committed event is titled T (for the C10
counterexample and witness). -/
def cexEventStore : KStore Event :=
  ⟨1, [⟨0, "T", "committed", 5, 0, 60, none, 0, .approved, 1, 1, some 1, none, false⟩]⟩

/-- A payload titled T (already present) whose references are all missing. -/
def cexPayloadSkipped : EventSeedPayload :=
  ⟨"T", "dup", 6, 0, 60, none, "ghost", "ghost", "nowhere"⟩

/-- A payload with a fresh title U and a missing creator reference. -/
def cexPayloadFresh : EventSeedPayload :=
  ⟨"U", "fresh", 6, 0, 60, none, "ghost", "ghost", "nowhere"⟩

/-- Counterexample to C10 as stated: a payload that names a creator login
absent from the curators mapping (the premise of the claim holds) is
nevertheless skipped because its title already exists in the store, so
`seed_events` raises no `ValueError` and returns successfully after the final
commit. -/
theorem seed_events_missing_reference_counterexample :
    (refErrorMsg cexPayloadSkipped [] []).isSome = true
    ∧ lookupKey ([] : List (String × CuratorSeedResult)) cexPayloadSkipped.creatorLogin = none
    ∧ seed_events cexEventStore [cexPayloadSkipped] [] [] = .ok cexEventStore
    ∧ run_seed_events cexEventStore [cexPayloadSkipped] [] [] = (cexEventStore, none) :=
  ⟨rfl, rfl, rfl, rfl⟩

/-- Witness for the amended C10: a fresh-titled payload with a missing
creator makes the call fail and leaves the store unchanged; concretely the
raised message is the creator one. -/
theorem seed_events_missing_reference_aborts_witness :
    run_seed_events cexEventStore [cexPayloadFresh] [] []
      = (cexEventStore, some "Creator ghost missing for event U")
    ∧ ∃ m, run_seed_events cexEventStore ([] ++ cexPayloadFresh :: []) [] []
        = (cexEventStore, some m)
      ∧ ∃ q ∈ [] ++ cexPayloadFresh :: [], refErrorMsg q [] [] = some m :=
  ⟨by rfl,
   seed_events_missing_reference_aborts cexEventStore [] [] cexPayloadFresh [] []
     (by rfl) (by rfl) (fun q hq => absurd hq (List.not_mem_nil q))⟩

end UviB
